import Mathlib

/-!
# Knowledge-base retriever: document joining, citations and the empty-result fallback

A shallow embedding of `pkg/application/retriever/knowledgebaseretriever.go` and of the file
list built by `knowledgebase2model` in `apiserver/pkg/knowledgebase/knowledgebase.go`.

Modelling conventions

* A Go `string` (and the text held in a `[]byte` attribute) is a Lean `String`; `len` is the
  number of bytes of its UTF-8 encoding, as in Go.
* A Go `map[string]any` is a lookup function `String → Option Any`; writing a key is a
  point-wise update.  Maps handed to the code are allocated (non-nil).
* Pointer receivers become explicit state passing: `joinDocuments` returns the updated
  assembler together with the joined text.
* `float32` scores are only ever copied, so they are carried as their bit pattern.
* Logging (`klog`) has no effect on the results and is left out.
* The parts of the Go standard library (`strings`, `strconv`) that the code calls are modelled
  in the namespaces of the same name; `int` is the 64-bit integer type.
-/

namespace Arcadia

/-! ## Go strings, dynamic values and maps -/

/-- The UTF-8 encoding of one character, as a list of bytes. -/
def charBytes (c : Char) : List Nat :=
  let n := c.toNat
  if n < 0x80 then [n]
  else if n < 0x800 then [0xC0 + n / 64, 0x80 + n % 64]
  else if n < 0x10000 then [0xE0 + n / 4096, 0x80 + (n / 64) % 64, 0x80 + n % 64]
  else [0xF0 + n / 262144, 0x80 + (n / 4096) % 64, 0x80 + (n / 64) % 64, 0x80 + n % 64]

/-- Go `[]byte(s)`: the bytes of a string. -/
def bytesOf (s : String) : List Nat :=
  s.data.flatMap charBytes

/-- Go `len(s)` for a string: its length in bytes. -/
def len (s : String) : Nat :=
  (bytesOf s).length

/-- Go `float32`, kept as its IEEE-754 bit pattern. -/
structure float32 where
  bits : Nat
deriving DecidableEq, Repr

/-- Go `any`, as far as the code tells values apart: a `[]byte`, a `string`, or a value of
some other dynamic type. -/
inductive Any where
  | bytes (b : String)
  | string (s : String)
  | other (tag : Nat)
deriving DecidableEq, Repr

/-- Go `map[string]any`. -/
abbrev GoMap := String → Option Any

/-- Go `m[k] = v`. -/
def GoMap.set (m : GoMap) (k : String) (v : Any) : GoMap :=
  fun k' => if k' = k then some v else m k'

/-- Go `b, _ := v.([]byte)` followed by `string(b)`: the text of a `[]byte` value, and the
empty string (from the nil slice) when the key is absent or holds another type. -/
def asBytes : Option Any → String
  | some (Any.bytes b) => b
  | _ => ""

/-! ## `strings` -/

namespace strings

/-- Go `strings.HasPrefix`. -/
def HasPrefix (s pre : String) : Bool :=
  pre.data.isPrefixOf s.data

/-- Go `strings.HasSuffix`. -/
def HasSuffix (s suf : String) : Bool :=
  suf.data.isSuffixOf s.data

/-- Go `strings.TrimPrefix`: `s` without the leading `pre`, or `s` itself when `s` does not
start with `pre`. -/
def TrimPrefix (s pre : String) : String :=
  if HasPrefix s pre then String.mk (s.data.drop pre.data.length) else s

/-- Go `strings.TrimSuffix`: `s` without the trailing `suf`, or `s` itself when `s` does not
end with `suf`. -/
def TrimSuffix (s suf : String) : String :=
  if HasSuffix s suf then String.mk (s.data.take (s.data.length - suf.data.length)) else s

end strings

/-! ## `strconv.Atoi` -/

namespace strconv

/-- Go `strconv.IntSize` on a 64-bit platform. -/
def IntSize : Nat := 64

/-- The two kinds of `*strconv.NumError`. -/
inductive NumError where
  | ErrSyntax
  | ErrRange
deriving DecidableEq, Repr

/-- Go `lower(c)`: `c | ('x' - 'X')`. -/
def lower (c : Nat) : Nat := c ||| 32

/-- The digit value `ParseUint` gives a byte: `'0'..'9'` and letters; `none` is the
`default` case of its switch. -/
def digitOf (c : Nat) : Option Nat :=
  if 48 ≤ c ∧ c ≤ 57 then some (c - 48)
  else if 97 ≤ lower c ∧ lower c ≤ 122 then some (lower c - 97 + 10)
  else none

/-- The digit loop of `ParseUint` on `uint64`, with the accumulator `n`. -/
def ParseUintLoop (base cutoff maxVal : Nat) : List Nat → Nat → Nat × Option NumError
  | [], n => (n, none)
  | c :: cs, n =>
    match digitOf c with
    | none => (0, some NumError.ErrSyntax)
    | some d =>
      if d ≥ base then (0, some NumError.ErrSyntax)
      else if n ≥ cutoff then (maxVal, some NumError.ErrRange)
      else
        let n10 := n * base
        let n1 := (n10 + d) % 2 ^ 64
        if n1 < n10 ∨ n1 > maxVal then (maxVal, some NumError.ErrRange)
        else ParseUintLoop base cutoff maxVal cs n1

/-- Go `strconv.ParseUint(s, 10, 0)`. -/
def ParseUint (s : List Nat) : Nat × Option NumError :=
  if s = [] then (0, some NumError.ErrSyntax)
  else ParseUintLoop 10 ((2 ^ 64 - 1) / 10 + 1) (2 ^ IntSize - 1) s 0

/-- Go `strconv.ParseInt(s, 10, 0)`. -/
def ParseInt (s : List Nat) : Int × Option NumError :=
  if s = [] then (0, some NumError.ErrSyntax)
  else
    let neg : Bool := s.head? = some 45 ∧ ¬ s.head? = some 43
    let s1 := if s.head? = some 43 then s.tail else if s.head? = some 45 then s.tail else s
    let r := ParseUint s1
    if r.2 = some NumError.ErrSyntax then (0, r.2)
    else
      let cutoff : Nat := 2 ^ (IntSize - 1)
      if !neg ∧ r.1 ≥ cutoff then ((cutoff : Int) - 1, some NumError.ErrRange)
      else if neg ∧ r.1 > cutoff then (-(cutoff : Int), some NumError.ErrRange)
      else (if neg then -(r.1 : Int) else (r.1 : Int), none)

/-- The digit loop of the fast path of `Atoi`: `ch -= '0'` on a byte, then `n = n*10 + ch`. -/
def atoiFastLoop : List Nat → Int → Option Int
  | [], n => some n
  | ch :: cs, n =>
    let d := (ch + 256 - 48) % 256
    if d > 9 then none else atoiFastLoop cs (n * 10 + (d : Int))

/-- Go `strconv.Atoi`: the value and the error, if any. -/
def Atoi (s : String) : Int × Option NumError :=
  let s0 := bytesOf s
  let sLen := s0.length
  if 0 < sLen ∧ sLen < 19 then
    let signed : Bool := s0.head? = some 45 ∨ s0.head? = some 43
    let s1 := if signed then s0.tail else s0
    if signed ∧ s1.length < 1 then (0, some NumError.ErrSyntax)
    else
      match atoiFastLoop s1 0 with
      | none => (0, some NumError.ErrSyntax)
      | some n => (if s0.head? = some 45 then -n else n, none)
  else ParseInt s0

end strconv

/-! ## `langchaingo` types used by the retriever -/

namespace schema

/-- Go `schema.Document`: one search hit. -/
structure Document where
  PageContent : String
  Metadata : GoMap
  Score : float32

end schema

namespace chains

/-- Go `chains.LLMChain`, as far as the retriever reads it. -/
structure LLMChain where
  OutputKey : String
deriving DecidableEq, Repr

/-- Go `chains.StuffDocuments`. -/
structure StuffDocuments where
  LLMChain : chains.LLMChain
  InputKey : String
  DocumentVariableName : String
  Separator : String
deriving DecidableEq, Repr

end chains

/-! ## The retriever package -/

namespace retriever

/-- Go `Reference`: one citation. -/
structure Reference where
  Question : String
  Answer : String
  Score : float32
  FilePath : String
  LineNumber : Int
deriving DecidableEq, Repr

/-- Go `KnowledgeBaseStuffDocuments`: the assembler. -/
structure KnowledgeBaseStuffDocuments where
  StuffDocuments : chains.StuffDocuments
  isDocNullReturn : Bool
  DocNullReturn : String
  References : List Reference
deriving DecidableEq, Repr

/-- The expression `strings.TrimPrefix(strings.TrimSuffix(s, "\""), "\"")` that
`joinDocuments` applies to the answer and to the file name. -/
def unquote (s : String) : String :=
  strings.TrimPrefix (strings.TrimSuffix s "\"") "\""

/-- The body of the `for k, doc := range docs` loop of `joinDocuments`, run on the documents
from index `k` on, with the text and the reference list built so far. -/
def joinLoop (Separator : String) (docLen : Nat) :
    Nat → List schema.Document → String × List Reference → String × List Reference
  | _, [], st => st
  | k, doc :: rest, (text, refs) =>
    let answer := asBytes (doc.Metadata "a")
    let text := text ++ doc.PageContent
    let text := if len answer ≠ 0 then text ++ "\na: " ++ unquote answer else text
    let text := if (k : Int) ≠ (docLen : Int) - 1 then text ++ Separator else text
    let filepath := asBytes (doc.Metadata "fileName")
    let lineNumber := asBytes (doc.Metadata "lineNumber")
    let line := (strconv.Atoi lineNumber).1
    let refs := refs ++ [{ Question := doc.PageContent,
                           Answer := unquote answer,
                           Score := doc.Score,
                           FilePath := unquote filepath,
                           LineNumber := line }]
    joinLoop Separator docLen (k + 1) rest (text, refs)

/-- Go `(*KnowledgeBaseStuffDocuments).joinDocuments`: the assembler after the call and the
returned text. -/
def joinDocuments (c : KnowledgeBaseStuffDocuments) (docs : List schema.Document) :
    KnowledgeBaseStuffDocuments × String :=
  let r := joinLoop c.StuffDocuments.Separator docs.length 0 docs ("", c.References)
  let text := r.1
  let c := { c with References := r.2 }
  let c := if len text = 0 then { c with isDocNullReturn := true } else c
  (c, text)

/-- Go `NewStuffDocuments`.  `newStuff` is `chains.NewStuffDocuments` of langchaingo, which
builds the embedded chain (and with it the separator). -/
def NewStuffDocuments (newStuff : chains.LLMChain → chains.StuffDocuments)
    (llmChain : chains.LLMChain) (docNullReturn : String) : KnowledgeBaseStuffDocuments :=
  { StuffDocuments := newStuff llmChain,
    isDocNullReturn := false,
    DocNullReturn := docNullReturn,
    References := [] }

/-- Go `KnowledgeBaseStuffDocuments.HandleChainEnd`: the output map after the call. -/
def HandleChainEnd (c : KnowledgeBaseStuffDocuments) (outputValues : GoMap) : GoMap :=
  if !c.isDocNullReturn then outputValues
  else outputValues.set c.StuffDocuments.LLMChain.OutputKey (Any.string c.DocNullReturn)

end retriever

end Arcadia

/-! ## Specification-side descriptions and worked inputs -/

namespace Arcadia

namespace retriever

/-- The text entry a hit contributes, as the specification words it: the content, followed
by the answer line only when the hit has a non-empty "a" attribute. -/
def entryOf (h : schema.Document) : String :=
  h.PageContent ++
    (if asBytes (h.Metadata "a") = "" then "" else "\na: " ++ unquote (asBytes (h.Metadata "a")))

/-- The citation of a hit, as the specification words it. -/
def referenceOf (h : schema.Document) : Reference :=
  { Question := h.PageContent,
    Answer := unquote (asBytes (h.Metadata "a")),
    Score := h.Score,
    FilePath := unquote (asBytes (h.Metadata "fileName")),
    LineNumber := (strconv.Atoi (asBytes (h.Metadata "lineNumber"))).1 }

/-- A chain constructor that sets the given separator (langchaingo's own uses "\n\n"). -/
def stuffWith (sep : String) : chains.LLMChain → chains.StuffDocuments :=
  fun l => { LLMChain := l, InputKey := "input_documents",
             DocumentVariableName := "context", Separator := sep }

/-- An attribute map given by its entries. -/
def attrs (l : List (String × Any)) : GoMap :=
  fun k => l.lookup k

/-- A hit with content "Q1" and the quoted answer "A1". -/
def hitQ1 : schema.Document :=
  { PageContent := "Q1", Metadata := attrs [("a", Any.bytes "\"A1\"")], Score := ⟨1051260355⟩ }

/-- A hit with content "Q2" and no attributes. -/
def hitQ2 : schema.Document :=
  { PageContent := "Q2", Metadata := attrs [], Score := ⟨1051260355⟩ }

/-- A hit with empty content and no attributes. -/
def hitBlank : schema.Document :=
  { PageContent := "", Metadata := attrs [], Score := ⟨0⟩ }

/-- A hit with empty content that still carries an answer. -/
def hitAnswerOnly : schema.Document :=
  { PageContent := "", Metadata := attrs [("a", Any.bytes "A1")], Score := ⟨0⟩ }

/-- A hit with content "Q1" that carries a quoted answer, a quoted file name and the line
number "7". -/
def hitCited : schema.Document :=
  { PageContent := "Q1",
    Metadata := attrs [("a", Any.bytes "\"A1\""), ("fileName", Any.bytes "\"qa.csv\""),
      ("lineNumber", Any.bytes "7")],
    Score := ⟨1051260355⟩ }

/-- A chain whose output key is "text". -/
def llmText : chains.LLMChain :=
  { OutputKey := "text" }

/-- An output map as a completion step leaves it. -/
def outText : GoMap :=
  attrs [("text", Any.string "a made-up answer"), ("usage", Any.other 7)]

end retriever

end Arcadia

/-! ## Specification-side description of base-10 parsing -/

namespace Arcadia

namespace strconv

/-- Whether a byte is one of the ASCII digits '0' to '9'. -/
def isDigitByte (c : Nat) : Bool :=
  decide (48 ≤ c) && decide (c ≤ 57)

/-- The number that the digit bytes `ds` denote in base 10, continuing from the value `n`
of the digits before them. -/
def decimalFrom (n : Nat) (ds : List Nat) : Nat :=
  ds.foldl (fun m c => m * 10 + (c - 48)) n

/-- The value `Atoi` returns, described on the bytes of its argument: after one optional
sign, `ds` are the leading digits and `rest` is what follows them.  Digits that overflow 64
bits give the nearest bound of `int` whatever follows; otherwise anything but a non-empty
run of digits gives 0; otherwise the number is returned, or the nearest bound of `int`
when it does not fit. -/
def atoiValue (b : List Nat) : Int :=
  let body := if b.head? = some 45 ∨ b.head? = some 43 then b.tail else b
  let ds := body.takeWhile isDigitByte
  let rest := body.dropWhile isDigitByte
  let v := decimalFrom 0 ds
  if 2 ^ 64 ≤ v then (if b.head? = some 45 then -(2 ^ 63 : Int) else 2 ^ 63 - 1)
  else if ds = [] ∨ rest ≠ [] then 0
  else if b.head? = some 45 then (if 2 ^ 63 < v then -(2 ^ 63 : Int) else -(v : Int))
  else (if 2 ^ 63 ≤ v then 2 ^ 63 - 1 else (v : Int))

end strconv

namespace retriever

/-- A hit whose only attribute is the given "lineNumber" text. -/
def hitLine (lineNumber : String) : schema.Document :=
  { PageContent := "Q", Metadata := attrs [("lineNumber", Any.bytes lineNumber)], Score := ⟨0⟩ }

end retriever

end Arcadia

/-! ## Resolving a retriever: `NewKnowledgeBaseRetriever` and `Run`

The cluster client, the conversion of unstructured objects, the embedder factory and the
chroma client are outside the file; they are gathered in `Cluster`, and every call that
leaves the process is recorded in a log, in the order the code makes it.  A Go `error` is
carried as its message. -/

namespace Arcadia

namespace v1alpha1

/-- Go `v1alpha1.TypedObjectReference`; the two pointer fields are options. -/
structure TypedObjectReference where
  APIGroup : Option String
  Kind : String
  Name : String
  Namespace : Option String
deriving DecidableEq, Repr

/-- Go `v1alpha1.FileWithVersion`. -/
structure FileWithVersion where
  Path : String
  Version : String
deriving DecidableEq, Repr

/-- Go `v1alpha1.FileGroup`; `Source` is a pointer. -/
structure FileGroup where
  Source : Option TypedObjectReference
  Files : List FileWithVersion
deriving DecidableEq, Repr

/-- Go `v1alpha1.FileDetails`, with the fields `knowledgebase2model` reads (`Type_` is its
`Type`); the time is kept as a number. -/
structure FileDetails where
  Path : String
  Type_ : String
  Count : String
  Size : String
  Phase : String
  TimeCost : Int
  LastUpdateTime : Nat
  Version : String
deriving DecidableEq, Repr

/-- Go `v1alpha1.FileGroupDetail`; `Source` is a pointer. -/
structure FileGroupDetail where
  Source : Option TypedObjectReference
  FileDetails : List FileDetails
deriving DecidableEq, Repr

/-- Go `v1alpha1.KnowledgeBaseSpec`, with the fields the two files read. -/
structure KnowledgeBaseSpec where
  Embedder : Option TypedObjectReference
  VectorStore : Option TypedObjectReference
  FileGroups : List FileGroup
deriving DecidableEq, Repr

/-- Go `v1alpha1.KnowledgeBaseStatus`, with the field `knowledgebase2model` reads. -/
structure KnowledgeBaseStatus where
  FileGroupDetail : List FileGroupDetail
deriving DecidableEq, Repr

/-- Go `v1alpha1.KnowledgeBase`. -/
structure KnowledgeBase where
  Name : String
  Namespace : String
  Spec : KnowledgeBaseSpec
  Status : KnowledgeBaseStatus
deriving DecidableEq, Repr

/-- Go `v1alpha1.Embedder`, as far as the code passes it on. -/
structure Embedder where
  Name : String
deriving DecidableEq, Repr

/-- Go `v1alpha1.Endpoint`. -/
structure Endpoint where
  URL : String
deriving DecidableEq, Repr

/-- Go `v1alpha1.Chroma`. -/
structure Chroma where
  DistanceFunction : String
deriving DecidableEq, Repr

/-- Go `v1alpha1.VectorStoreSpec`: the endpoint, the chroma settings and the backend type
that `Spec.Type()` reports (`Type_`). -/
structure VectorStoreSpec where
  Endpoint : Endpoint
  Chroma : Chroma
  Type_ : String
deriving DecidableEq, Repr

/-- Go `v1alpha1.VectorStore`. -/
structure VectorStore where
  Spec : VectorStoreSpec
deriving DecidableEq, Repr

/-- Modelled from the spec: the constant `v1alpha1.VectorStoreTypeChroma` of the package
`api/base/v1alpha1`, which is not among the sources; it names the one backend the resolver
supports. -/
def VectorStoreTypeChroma : String := "chroma"

end v1alpha1

namespace apiretriever

/-- Go `apiretriever.KnowledgeBaseRef`. -/
structure KnowledgeBaseRef where
  Name : String
deriving DecidableEq, Repr

/-- Go `apiretriever.Input`. -/
structure Input where
  KnowledgeBaseRef : apiretriever.KnowledgeBaseRef
deriving DecidableEq, Repr

/-- Go `apiretriever.KnowledgeBaseRetrieverSpec`, with the fields the resolver reads. -/
structure KnowledgeBaseRetrieverSpec where
  Input : apiretriever.Input
  NumDocuments : Int
  ScoreThreshold : float32
  DocNullReturn : String
deriving DecidableEq, Repr

/-- Go `apiretriever.KnowledgeBaseRetriever`: the declaration of a retriever node. -/
structure KnowledgeBaseRetriever where
  Spec : KnowledgeBaseRetrieverSpec
deriving DecidableEq, Repr

end apiretriever

namespace base

/-- Go `base.BaseNode`, with the reference the resolver reads. -/
structure BaseNode where
  Ref : v1alpha1.TypedObjectReference
deriving DecidableEq, Repr

end base

namespace vectorstores

/-- A chroma store as `chroma.New` returns it: the settings it was built with. -/
structure Store where
  URL : String
  DistanceFunction : String
  NameSpace : String
  Embedder : String
deriving DecidableEq, Repr

/-- Go `vectorstores.Retriever` of langchaingo: the store, the number of documents and the
score threshold option. -/
structure Retriever where
  v : Store
  numDocs : Int
  scoreThreshold : float32
deriving DecidableEq, Repr

/-- Go `vectorstores.ToRetriever(s, numDocs, vectorstores.WithScoreThreshold(t))`. -/
def ToRetriever (s : Store) (numDocs : Int) (scoreThreshold : float32) : Retriever :=
  { v := s, numDocs := numDocs, scoreThreshold := scoreThreshold }

end vectorstores

namespace retriever

/-- An object as the dynamic client returns it, kept as its content. -/
structure Unstructured where
  content : String
deriving DecidableEq, Repr

/-- What `NewKnowledgeBaseRetriever` reaches outside the file. -/
structure Cluster where
  /-- Go `base.GetAppNamespace(ctx)`. -/
  GetAppNamespace : String
  /-- Go `(*TypedObjectReference).GetNamespace(defaultNamespace)`. -/
  GetNamespace : v1alpha1.TypedObjectReference → String → String
  /-- Go `cli.Resource(gvr).Namespace(ns).Get(ctx, name, ...)`, by resource, namespace, name. -/
  Get : String → String → String → Except String Unstructured
  /-- Go `FromUnstructured` into an `apiretriever.KnowledgeBaseRetriever`. -/
  toKnowledgeBaseRetriever : Unstructured → Except String apiretriever.KnowledgeBaseRetriever
  /-- Go `FromUnstructured` into a `v1alpha1.KnowledgeBase`. -/
  toKnowledgeBase : Unstructured → Except String v1alpha1.KnowledgeBase
  /-- Go `FromUnstructured` into a `v1alpha1.Embedder`. -/
  toEmbedder : Unstructured → Except String v1alpha1.Embedder
  /-- Go `FromUnstructured` into a `v1alpha1.VectorStore`. -/
  toVectorStore : Unstructured → Except String v1alpha1.VectorStore
  /-- Go `langchainwrap.GetLangchainEmbedder`. -/
  GetLangchainEmbedder : v1alpha1.Embedder → Except String String
  /-- Go `knowledgebase.VectorStoreCollectionName()`. -/
  VectorStoreCollectionName : v1alpha1.KnowledgeBase → String
  /-- Go `chroma.New` with the URL, distance function, namespace and embedder options. -/
  chromaNew : String → String → String → String → Except String vectorstores.Store

/-- A call that leaves the process. -/
inductive Call where
  | Get (resource ns name : String)
  | GetLangchainEmbedder (embedder : v1alpha1.Embedder)
  | chromaNew (url distanceFunction nameSpace : String)
deriving DecidableEq, Repr

/-- Go `KnowledgeBaseRetriever`: the langchaingo retriever, the node and the fallback text. -/
structure KnowledgeBaseRetriever where
  Retriever : vectorstores.Retriever
  BaseNode : base.BaseNode
  DocNullReturn : String
deriving DecidableEq, Repr

/-- Go `NewKnowledgeBaseRetriever`: the calls made, in order, and the retriever or the
error returned. -/
def NewKnowledgeBaseRetriever (cli : Cluster) (baseNode : base.BaseNode) :
    List Call × Except String KnowledgeBaseRetriever :=
  let ns := cli.GetAppNamespace
  let get1 := Call.Get "knowledgebaseretrievers" (cli.GetNamespace baseNode.Ref ns)
    baseNode.Ref.Name
  match cli.Get "knowledgebaseretrievers" (cli.GetNamespace baseNode.Ref ns)
      baseNode.Ref.Name with
  | .error err => ([get1], .error ("can't find the retriever in cluster: " ++ err))
  | .ok obj =>
  match cli.toKnowledgeBaseRetriever obj with
  | .error err => ([get1], .error err)
  | .ok inst =>
  let knowledgebaseName := inst.Spec.Input.KnowledgeBaseRef.Name
  let get2 := Call.Get "knowledgebases" (cli.GetNamespace baseNode.Ref ns) knowledgebaseName
  match cli.Get "knowledgebases" (cli.GetNamespace baseNode.Ref ns) knowledgebaseName with
  | .error err => ([get1, get2], .error err)
  | .ok obj =>
  match cli.toKnowledgeBase obj with
  | .error err => ([get1, get2], .error err)
  | .ok knowledgebase =>
  match knowledgebase.Spec.Embedder, knowledgebase.Spec.VectorStore with
  | none, _ =>
    ([get1, get2], .error ("knowledgebase " ++ knowledgebaseName ++
      ": embedder or vectorstore or filegroups is not setting"))
  | _, none =>
    ([get1, get2], .error ("knowledgebase " ++ knowledgebaseName ++
      ": embedder or vectorstore or filegroups is not setting"))
  | some embedderReq, some vectorStoreReq =>
  let get3 := Call.Get "embedders" (cli.GetNamespace embedderReq ns) embedderReq.Name
  match cli.Get "embedders" (cli.GetNamespace embedderReq ns) embedderReq.Name with
  | .error err => ([get1, get2, get3], .error err)
  | .ok obj =>
  match cli.toEmbedder obj with
  | .error err => ([get1, get2, get3], .error err)
  | .ok embedder =>
  let wrap := Call.GetLangchainEmbedder embedder
  match cli.GetLangchainEmbedder embedder with
  | .error err => ([get1, get2, get3, wrap], .error err)
  | .ok em =>
  let get4 := Call.Get "vectorstores" (cli.GetNamespace vectorStoreReq ns) vectorStoreReq.Name
  match cli.Get "vectorstores" (cli.GetNamespace vectorStoreReq ns) vectorStoreReq.Name with
  | .error err => ([get1, get2, get3, wrap, get4], .error err)
  | .ok obj =>
  match cli.toVectorStore obj with
  | .error err => ([get1, get2, get3, wrap, get4], .error err)
  | .ok vectorStore =>
  if vectorStore.Spec.Type_ = v1alpha1.VectorStoreTypeChroma then
    let new := Call.chromaNew vectorStore.Spec.Endpoint.URL
      vectorStore.Spec.Chroma.DistanceFunction (cli.VectorStoreCollectionName knowledgebase)
    match cli.chromaNew vectorStore.Spec.Endpoint.URL vectorStore.Spec.Chroma.DistanceFunction
        (cli.VectorStoreCollectionName knowledgebase) em with
    | .error err => ([get1, get2, get3, wrap, get4, new], .error err)
    | .ok s =>
      ([get1, get2, get3, wrap, get4, new],
        .ok { Retriever := vectorstores.ToRetriever s inst.Spec.NumDocuments
                inst.Spec.ScoreThreshold,
              BaseNode := baseNode,
              DocNullReturn := inst.Spec.DocNullReturn })
  else
    ([get1, get2, get3, wrap, get4],
      .error ("unknown vectorstore type: " ++ vectorStore.Spec.Type_))

/-- Go `any` in the argument map of `Run`: the retriever stored by `Run`, or any other
value. -/
inductive Arg where
  | retriever (l : KnowledgeBaseRetriever)
  | value (v : Any)
deriving DecidableEq, Repr

/-- Go `map[string]any` as the argument map of a node. -/
abbrev Args := String → Option Arg

/-- Go `(*KnowledgeBaseRetriever).Run`: the returned map and the returned error, if any. -/
def KnowledgeBaseRetriever.Run (l : KnowledgeBaseRetriever) (_cli : Cluster) (args : Args) :
    Args × Option String :=
  (fun k => if k = "retriever" then some (Arg.retriever l) else args k, none)

end retriever

end Arcadia

/-! ## Worked inputs for the resolver -/

namespace Arcadia

namespace retriever

/-- A retriever node named "retriever-1". -/
def demoNode : base.BaseNode :=
  { Ref := { APIGroup := none, Kind := "KnowledgeBaseRetriever", Name := "retriever-1",
             Namespace := none } }

/-- The declaration of that node: knowledge base "kb-1", five documents, fallback "none". -/
def demoDeclaration : apiretriever.KnowledgeBaseRetriever :=
  { Spec := { Input := { KnowledgeBaseRef := { Name := "kb-1" } },
              NumDocuments := 5,
              ScoreThreshold := ⟨1050253722⟩,
              DocNullReturn := "none" } }

/-- A reference to an object of the given kind and name, in the default namespace. -/
def demoRef (kind name : String) : v1alpha1.TypedObjectReference :=
  { APIGroup := none, Kind := kind, Name := name, Namespace := none }

/-- The knowledge base "kb-1" with the given embedder and vector-store references. -/
def demoKnowledgeBase (embedder vectorStore : Option v1alpha1.TypedObjectReference) :
    v1alpha1.KnowledgeBase :=
  { Name := "kb-1", Namespace := "arcadia",
    Spec := { Embedder := embedder, VectorStore := vectorStore, FileGroups := [] },
    Status := { FileGroupDetail := [] } }

/-- A vector store of the given backend type. -/
def demoVectorStore (type : String) : v1alpha1.VectorStore :=
  { Spec := { Endpoint := { URL := "http://chroma:8000" },
              Chroma := { DistanceFunction := "cosine" },
              Type_ := type } }

/-- A cluster in which every lookup succeeds and that holds the given knowledge base and
vector store. -/
def demoCluster (kb : v1alpha1.KnowledgeBase) (vs : v1alpha1.VectorStore) : Cluster :=
  { GetAppNamespace := "arcadia",
    GetNamespace := fun r d => r.Namespace.getD d,
    Get := fun resource ns name => .ok { content := resource ++ "/" ++ ns ++ "/" ++ name },
    toKnowledgeBaseRetriever := fun _ => .ok demoDeclaration,
    toKnowledgeBase := fun _ => .ok kb,
    toEmbedder := fun obj => .ok { Name := obj.content },
    toVectorStore := fun _ => .ok vs,
    GetLangchainEmbedder := fun e => .ok e.Name,
    VectorStoreCollectionName := fun k => k.Namespace ++ "_" ++ k.Name,
    chromaNew := fun url d ns em =>
      .ok { URL := url, DistanceFunction := d, NameSpace := ns, Embedder := em } }

/-- An argument map with a question and a context. -/
def demoArgs : Args :=
  fun k => if k = "question" then some (Arg.value (Any.string "how many days?"))
    else if k = "context" then some (Arg.value (Any.other 3))
    else none

/-- A resolved retriever. -/
def demoRetriever : KnowledgeBaseRetriever :=
  { Retriever := vectorstores.ToRetriever
      { URL := "http://chroma:8000", DistanceFunction := "cosine", NameSpace := "arcadia_kb-1",
        Embedder := "embedders/arcadia/e-1" } 5 ⟨1050253722⟩,
    BaseNode := demoNode,
    DocNullReturn := "none" }

end retriever

end Arcadia

/-! ## The API server's view of a knowledge base: `knowledgebase2model`

A shallow embedding of the file list built by `knowledgebase2model` in
`apiserver/pkg/knowledgebase/knowledgebase.go`.  The cluster client, the object store and
`filepath.Join` are gathered in `Platform`.  Dereferencing a nil pointer and indexing a
slice out of range end the call with a panic.  The fields of the model that are copied from
the object's metadata, conditions and embedding options do not bear on the file list and are
left out. -/

namespace Arcadia

namespace v1alpha1

/-- Modelled from the spec: the constant `v1alpha1.FileProcessPhasePending` of the package
`api/base/v1alpha1`, which is not among the sources; it is the phase of a file that has not
been processed yet. -/
def FileProcessPhasePending : String := "Pending"

/-- Go `v1alpha1.VersionedDataset`, as `knowledgebase2model` reads it: `Spec.Dataset` (a
pointer), `Spec.Version` and `Status.IsReady()`. -/
structure VersionedDataset where
  Dataset : Option TypedObjectReference
  Version : String
  IsReady : Bool
deriving DecidableEq, Repr

end v1alpha1

namespace generated

/-- Go `generated.TypedObjectReference`. -/
structure TypedObjectReference where
  APIGroup : Option String
  Kind : String
  Name : String
  Namespace : Option String
  DisplayName : Option String
deriving DecidableEq, Repr

/-- Go `generated.Filedetail`. -/
structure Filedetail where
  FileType : String
  Count : String
  Size : String
  Path : String
  Phase : String
  TimeCost : Int
  UpdateTimestamp : Option Nat
  Version : String
  LatestVersion : String
deriving DecidableEq, Repr

/-- Go `generated.Filegroupdetail`. -/
structure Filegroupdetail where
  Source : Option TypedObjectReference
  Filedetails : List Filedetail
deriving DecidableEq, Repr

/-- Go `generated.KnowledgeBase`, with the references and the file list. -/
structure KnowledgeBase where
  Name : String
  Namespace : String
  Embedder : TypedObjectReference
  EmbedderType : String
  VectorStore : TypedObjectReference
  FileGroupDetails : List Filegroupdetail
deriving DecidableEq, Repr

end generated

namespace knowledgebase

/-- The system object store: `StatFile` by bucket and object, giving the version id of the
object when the returned info is a `minio.ObjectInfo`. -/
structure OSS where
  StatFile : String → String → Except String (Option String)

/-- What `c.Get` reads of an embedder: its display name and its provider type. -/
structure EmbedderInfo where
  DisplayName : String
  ProviderType : String
deriving DecidableEq, Repr

/-- What `knowledgebase2model` reaches outside the file. -/
structure Platform where
  /-- Go `pkgconfig.GetSystemDatasourceOSS(ctx)`: the store (possibly nil) or an error. -/
  GetSystemDatasourceOSS : Except String (Option OSS)
  /-- Go `c.Get` of a `VersionedDataset`, by name and namespace. -/
  GetVersionedDataset : String → String → Except String v1alpha1.VersionedDataset
  /-- Go `filepath.Join`. -/
  Join : List String → String
  /-- Go `(*TypedObjectReference).GetNamespace(defaultNamespace)`. -/
  GetNamespace : v1alpha1.TypedObjectReference → String → String
  /-- Go `c.Get` of an `Embedder`, by namespace and name. -/
  GetEmbedder : String → String → Except String EmbedderInfo

/-- How a call ends: with a value, with a returned error, or with a panic. -/
inductive Outcome (α : Type) where
  | ok (a : α)
  | err (e : String)
  | panic
deriving DecidableEq, Repr

/-- Go `map[string][2]int`: the position of a spec file, by key. -/
abbrev Cache := String → Option (Nat × Nat)

/-- Go `cache[key] = [2]int{out, in}`. -/
def Cache.set (cache : Cache) (key : String) (pos : Nat × Nat) : Cache :=
  fun k => if k = key then some pos else cache k

/-- Go `fmt.Sprintf("%s/%s/%s", ns, name, path)`. -/
def fileKey (ns name path : String) : String :=
  ns ++ "/" ++ name ++ "/" ++ path

/-- The entry `&generated.Filedetail{Path: fn.Path, Phase: Pending}` of a spec file. -/
def pendingDetail (path : String) : generated.Filedetail :=
  { FileType := "", Count := "", Size := "", Path := path,
    Phase := v1alpha1.FileProcessPhasePending, TimeCost := 0, UpdateTimestamp := none,
    Version := "", LatestVersion := "" }

/-- The entry built from a status detail and the version id found in the object store. -/
def overlayDetail (detail : v1alpha1.FileDetails) (latestVersion : String) :
    generated.Filedetail :=
  { FileType := detail.Type_, Count := detail.Count, Size := detail.Size, Path := detail.Path,
    Phase := detail.Phase, TimeCost := detail.TimeCost,
    UpdateTimestamp := some detail.LastUpdateTime, Version := detail.Version,
    LatestVersion := latestVersion }

/-- The loop `for in, fn := range fg.Files`, from index `in_` on. -/
def specFiles (ns name : String) (out : Nat) :
    Nat → List v1alpha1.FileWithVersion → Cache × List generated.Filedetail →
      Cache × List generated.Filedetail
  | _, [], st => st
  | in_, fn :: rest, (cache, groupFiles) =>
    let key := fileKey ns name fn.Path
    specFiles ns name out (in_ + 1) rest
      (cache.set key (out, in_), groupFiles ++ [pendingDetail fn.Path])

/-- The loop `for out, fg := range knowledgebase.Spec.FileGroups`, from index `out` on;
`none` is the panic on a nil `fg.Source`. -/
def specGroups (kbNamespace : String) :
    Nat → List v1alpha1.FileGroup → Cache × List generated.Filegroupdetail →
      Option (Cache × List generated.Filegroupdetail)
  | _, [], st => some st
  | out, fg :: rest, (cache, filegroupdetails) =>
    match fg.Source with
    | none => none
    | some src =>
      let ns := match src.Namespace with
        | some n => n
        | none => kbNamespace
      let r := specFiles ns src.Name out 0 fg.Files (cache, [])
      let source : generated.TypedObjectReference :=
        { APIGroup := src.APIGroup, Kind := src.Kind, Name := src.Name, Namespace := some ns,
          DisplayName := none }
      specGroups kbNamespace (out + 1) rest
        (r.1, filegroupdetails ++ [{ Source := some source, Filedetails := r.2 }])

/-- The base path of a versioned dataset, or "" when the source is none or is not ready. -/
def vsBasePathOf (p : Platform) (ns : String) (src : v1alpha1.TypedObjectReference) : String :=
  if src.Kind = "VersionedDataset" then
    match p.GetVersionedDataset src.Name ns with
    | .ok versioneddataset =>
      match versioneddataset.Dataset with
      | some dataset =>
        if versioneddataset.IsReady then
          p.Join ["dataset", dataset.Name, versioneddataset.Version]
        else ""
      | none => ""
    | .error _ => ""
  else ""

/-- The `VersionID` of `detailStat`: what the object store reports for the file, or "". -/
def latestVersionOf (p : Platform) (oss : Option OSS) (ns vsBasePath : String)
    (detail : v1alpha1.FileDetails) : String :=
  if vsBasePath ≠ "" then
    match oss with
    | some store =>
      match store.StatFile ns (p.Join [vsBasePath, detail.Path]) with
      | .ok (some versionID) => versionID
      | _ => ""
    | none => ""
  else ""

/-- Go `filegroupdetails[v0].Filedetails[v1] = x`; `none` is the panic of an index out of
range. -/
def setFile (filegroupdetails : List generated.Filegroupdetail) (v0 v1 : Nat)
    (x : generated.Filedetail) : Option (List generated.Filegroupdetail) :=
  match filegroupdetails[v0]? with
  | none => none
  | some g =>
    if v1 < g.Filedetails.length then
      some (filegroupdetails.set v0 { g with Filedetails := g.Filedetails.set v1 x })
    else none

/-- The loop `for _, detail := range filegroupdetail.FileDetails`. -/
def statusFiles (p : Platform) (oss : Option OSS) (ns name vsBasePath : String)
    (cache : Cache) :
    List v1alpha1.FileDetails → List generated.Filegroupdetail →
      Option (List generated.Filegroupdetail)
  | [], filegroupdetails => some filegroupdetails
  | detail :: rest, filegroupdetails =>
    match cache (fileKey ns name detail.Path) with
    | some v =>
      match setFile filegroupdetails v.1 v.2
          (overlayDetail detail (latestVersionOf p oss ns vsBasePath detail)) with
      | none => none
      | some updated => statusFiles p oss ns name vsBasePath cache rest updated
    | none => statusFiles p oss ns name vsBasePath cache rest filegroupdetails

/-- The loop `for _, filegroupdetail := range knowledgebase.Status.FileGroupDetail`; `none`
is a panic. -/
def statusGroups (p : Platform) (oss : Option OSS) (kbNamespace : String) (cache : Cache) :
    List v1alpha1.FileGroupDetail → List generated.Filegroupdetail →
      Option (List generated.Filegroupdetail)
  | [], filegroupdetails => some filegroupdetails
  | filegroupdetail :: rest, filegroupdetails =>
    match filegroupdetail.Source with
    | none => none
    | some src =>
      let ns := match src.Namespace with
        | some n => n
        | none => kbNamespace
      match statusFiles p oss ns src.Name (vsBasePathOf p ns src) cache
          filegroupdetail.FileDetails filegroupdetails with
      | none => none
      | some updated => statusGroups p oss kbNamespace cache rest updated

/-- Go `knowledgebase2model`. -/
def knowledgebase2model (p : Platform) (knowledgebase : v1alpha1.KnowledgeBase) :
    Outcome generated.KnowledgeBase :=
  match specGroups knowledgebase.Namespace 0 knowledgebase.Spec.FileGroups
      (fun _ => none, []) with
  | none => Outcome.panic
  | some (cache, filegroupdetails) =>
    let overlaid : Outcome (List generated.Filegroupdetail) :=
      if knowledgebase.Status.FileGroupDetail.length > 0 then
        match p.GetSystemDatasourceOSS with
        | .error err => Outcome.err err
        | .ok oss =>
          match statusGroups p oss knowledgebase.Namespace cache
              knowledgebase.Status.FileGroupDetail filegroupdetails with
          | none => Outcome.panic
          | some updated => Outcome.ok updated
      else Outcome.ok filegroupdetails
    match overlaid with
    | Outcome.err err => Outcome.err err
    | Outcome.panic => Outcome.panic
    | Outcome.ok filegroupdetails =>
      match knowledgebase.Spec.Embedder with
      | none => Outcome.panic
      | some embedderRef =>
        let shown : String × String :=
          match p.GetEmbedder (p.GetNamespace embedderRef knowledgebase.Namespace)
              embedderRef.Name with
          | .error err => ("Unknown: " ++ err, "Unknown")
          | .ok embedderResource => (embedderResource.DisplayName, embedderResource.ProviderType)
        match knowledgebase.Spec.VectorStore with
        | none => Outcome.panic
        | some vectorStoreRef =>
          Outcome.ok
            { Name := knowledgebase.Name,
              Namespace := knowledgebase.Namespace,
              Embedder := { APIGroup := embedderRef.APIGroup, Kind := embedderRef.Kind,
                            Name := embedderRef.Name, Namespace := embedderRef.Namespace,
                            DisplayName := some shown.1 },
              EmbedderType := shown.2,
              VectorStore := { APIGroup := vectorStoreRef.APIGroup, Kind := vectorStoreRef.Kind,
                               Name := vectorStoreRef.Name,
                               Namespace := vectorStoreRef.Namespace,
                               DisplayName := none },
              FileGroupDetails := filegroupdetails }

end knowledgebase

end Arcadia

/-! ## Specification-side description of the file list -/

namespace Arcadia

namespace knowledgebase

/-- The namespace of a source: its own when set, that of the knowledge base otherwise. -/
def namespaceOf (kbNamespace : String) (src : v1alpha1.TypedObjectReference) : String :=
  match src.Namespace with
  | some n => n
  | none => kbNamespace

/-- The value of the last pair of the list that has the key `k`. -/
def lastWith {α : Type} : List (String × α) → String → Option α
  | [], _ => none
  | (k', a) :: rest, k =>
    match lastWith rest k with
    | some b => some b
    | none => if k' = k then some a else none

/-- The key and the position (group `out`, index from `i` on) of each file of a group. -/
def filePositions (ns name : String) (out : Nat) :
    Nat → List v1alpha1.FileWithVersion → List (String × (Nat × Nat))
  | _, [] => []
  | i, fn :: rest => (fileKey ns name fn.Path, (out, i)) :: filePositions ns name out (i + 1) rest

/-- The key and the position of each spec file, in the order of the spec, the groups being
numbered from `out` on. -/
def specPositions (kbNamespace : String) :
    Nat → List v1alpha1.FileGroup → List (String × (Nat × Nat))
  | _, [] => []
  | out, fg :: rest =>
    (match fg.Source with
      | some src => filePositions (namespaceOf kbNamespace src) src.Name out 0 fg.Files
      | none => []) ++ specPositions kbNamespace (out + 1) rest

/-- The keys "namespace/source name/path" of the spec files, in the order of the spec. -/
def specKeys (kb : v1alpha1.KnowledgeBase) : List String :=
  (specPositions kb.Namespace 0 kb.Spec.FileGroups).map fun e => e.1

/-- The key of each status file, with its detail and the version id the object store
reports for it, in the order of the status. -/
def statusEntries (p : Platform) (oss : Option OSS) (kbNamespace : String) :
    List v1alpha1.FileGroupDetail → List (String × (v1alpha1.FileDetails × String))
  | [] => []
  | g :: rest =>
    (match g.Source with
      | some src =>
        g.FileDetails.map fun d =>
          (fileKey (namespaceOf kbNamespace src) src.Name d.Path,
            (d, latestVersionOf p oss (namespaceOf kbNamespace src)
              (vsBasePathOf p (namespaceOf kbNamespace src) src) d))
      | none => []) ++ statusEntries p oss kbNamespace rest

/-- The status files of a knowledge base as `knowledgebase2model` sees them. -/
def statusOf (p : Platform) (kb : v1alpha1.KnowledgeBase) :
    List (String × (v1alpha1.FileDetails × String)) :=
  match p.GetSystemDatasourceOSS with
  | .ok oss => statusEntries p oss kb.Namespace kb.Status.FileGroupDetail
  | .error _ => []

/-- The group of pending entries of a spec file group. -/
def pendingGroup (kbNamespace : String) (fg : v1alpha1.FileGroup) : generated.Filegroupdetail :=
  match fg.Source with
  | some src =>
    { Source := some { APIGroup := src.APIGroup, Kind := src.Kind, Name := src.Name,
                       Namespace := some (namespaceOf kbNamespace src), DisplayName := none },
      Filedetails := fg.Files.map fun fn => pendingDetail fn.Path }
  | none => { Source := none, Filedetails := [] }

/-- The entry at group `i`, index `j` of a file list. -/
def entryAt (G : List generated.Filegroupdetail) (i j : Nat) : Option generated.Filedetail :=
  match G[i]? with
  | some g => g.Filedetails[j]?
  | none => none

/-- The source and the number of entries of each group. -/
def shapeOf (G : List generated.Filegroupdetail) :
    List (Option generated.TypedObjectReference × Nat) :=
  G.map fun g => (g.Source, g.Filedetails.length)

/-- Whether a position exists in a file list. -/
def validPos (G : List generated.Filegroupdetail) (v : Nat × Nat) : Prop :=
  ∃ g, G[v.1]? = some g ∧ v.2 < g.Filedetails.length

/-- The overlay of a list of keyed entries on a file list, through the cache. -/
def overlayAll (cache : Cache) :
    List (String × generated.Filedetail) → List generated.Filegroupdetail →
      Option (List generated.Filegroupdetail)
  | [], G => some G
  | (k, x) :: rest, G =>
    match cache k with
    | some v =>
      match setFile G v.1 v.2 x with
      | none => none
      | some updated => overlayAll cache rest updated
    | none => overlayAll cache rest G

end knowledgebase

end Arcadia

/-! ## Worked inputs for the file list -/

namespace Arcadia

namespace knowledgebase

/-- A platform with no object store and no versioned datasets. -/
def demoPlatform : Platform :=
  { GetSystemDatasourceOSS := .ok none,
    GetVersionedDataset := fun _ _ => .error "not found",
    Join := fun parts => String.intercalate "/" parts,
    GetNamespace := fun r d => namespaceOf d r,
    GetEmbedder := fun _ _ => .ok { DisplayName := "bge", ProviderType := "worker" } }

/-- The datasource "ds", in the namespace of the knowledge base. -/
def demoSource : v1alpha1.TypedObjectReference :=
  { APIGroup := none, Kind := "Datasource", Name := "ds", Namespace := none }

/-- A status detail of the file at `path`, processed with the given phase. -/
def demoDetail (path phase : String) : v1alpha1.FileDetails :=
  { Path := path, Type_ := "QA", Count := "3", Size := "1KB", Phase := phase, TimeCost := 12,
    LastUpdateTime := 1700000000, Version := "v1" }

/-- The knowledge base "kb-1" with one file group of the given paths and one status group
of the given details, both from the datasource "ds". -/
def demoFiles (paths : List String) (status : List v1alpha1.FileDetails) :
    v1alpha1.KnowledgeBase :=
  { Name := "kb-1", Namespace := "arcadia",
    Spec := { Embedder := some { APIGroup := none, Kind := "Embedder", Name := "e-1",
                                 Namespace := none },
              VectorStore := some { APIGroup := none, Kind := "VectorStore", Name := "vs-1",
                                    Namespace := none },
              FileGroups := [{ Source := some demoSource,
                               Files := paths.map fun path => { Path := path, Version := "" } }] },
    Status := { FileGroupDetail := [{ Source := some demoSource, FileDetails := status }] } }

/-- The path and the phase of each entry of the file list of an outcome. -/
def phasesOf (r : Outcome generated.KnowledgeBase) : List (List (String × String)) :=
  match r with
  | Outcome.ok md => md.FileGroupDetails.map fun g => g.Filedetails.map fun e => (e.Path, e.Phase)
  | _ => []

end knowledgebase

end Arcadia
namespace Arcadia

/-! ## Facts about strings -/

theorem charBytes_ne_nil (c : Char) : charBytes c ≠ [] := by
  unfold charBytes
  simp only []
  split_ifs <;> simp

theorem len_eq_zero_iff (s : String) : len s = 0 ↔ s = "" := by
  unfold len bytesOf
  rw [List.length_eq_zero]
  constructor
  · intro h
    cases s with
    | mk l =>
      cases l with
      | nil => rfl
      | cons c cs =>
        simp only [List.flatMap_cons, List.append_eq_nil] at h
        exact absurd h.1 (charBytes_ne_nil c)
  · rintro rfl
    rfl

theorem append_eq_empty_iff (a b : String) : a ++ b = "" ↔ a = "" ∧ b = "" := by
  constructor
  · intro h
    have hd : (a ++ b).data = [] := by rw [h]
    rw [String.data_append, List.append_eq_nil] at hd
    exact ⟨String.ext hd.1, String.ext hd.2⟩
  · rintro ⟨rfl, rfl⟩
    rfl

theorem intercalate_go_eq (sep : String) (l : List String) :
    ∀ acc : String, String.intercalate.go acc sep l = acc ++ String.intercalate.go "" sep l := by
  induction l with
  | nil => intro acc; simp [String.intercalate.go]
  | cons a as ih =>
    intro acc
    simp only [String.intercalate.go]
    rw [ih (acc ++ sep ++ a), ih ("" ++ sep ++ a)]
    simp [String.append_assoc]

theorem intercalate_cons_cons (sep a b : String) (rest : List String) :
    String.intercalate sep (a :: b :: rest) = a ++ sep ++ String.intercalate sep (b :: rest) := by
  simp only [String.intercalate, String.intercalate.go]
  rw [intercalate_go_eq sep rest (a ++ sep ++ b), intercalate_go_eq sep rest b]
  simp [String.append_assoc]

theorem intercalate_eq_empty_iff (sep : String) (l : List String) :
    String.intercalate sep l = "" ↔ (∀ s ∈ l, s = "") ∧ (l.length ≤ 1 ∨ sep = "") := by
  induction l with
  | nil => simp [String.intercalate]
  | cons a as ih =>
    cases as with
    | nil => simp [String.intercalate, String.intercalate.go]
    | cons b rest =>
      rw [intercalate_cons_cons, append_eq_empty_iff, append_eq_empty_iff, ih]
      simp only [List.mem_cons, forall_eq_or_imp, List.length_cons]
      constructor
      · rintro ⟨⟨ha, hs⟩, ⟨hb, hr⟩, _⟩
        exact ⟨⟨ha, hb, hr⟩, Or.inr hs⟩
      · rintro ⟨⟨ha, hb, hr⟩, h⟩
        rcases h with h | h
        · omega
        · exact ⟨⟨ha, h⟩, ⟨hb, hr⟩, Or.inr h⟩

end Arcadia

namespace Arcadia

namespace retriever

/-! ## The join loop -/

theorem joinLoop_eq (sep : String) (n : Nat) (docs : List schema.Document) :
    ∀ (k : Nat) (text : String) (refs : List Reference), k + docs.length = n →
      joinLoop sep n k docs (text, refs) =
        (text ++ String.intercalate sep (docs.map entryOf), refs ++ docs.map referenceOf) := by
  induction docs with
  | nil =>
    intro k text refs _
    simp [joinLoop, String.intercalate]
  | cons doc rest ih =>
    intro k text refs hk
    have hentry : (if len (asBytes (doc.Metadata "a")) ≠ 0
          then text ++ doc.PageContent ++ "\na: " ++ unquote (asBytes (doc.Metadata "a"))
          else text ++ doc.PageContent) = text ++ entryOf doc := by
      unfold entryOf
      by_cases ha : asBytes (doc.Metadata "a") = ""
      · have : len (asBytes (doc.Metadata "a")) = 0 := (len_eq_zero_iff _).2 ha
        rw [if_neg (not_not.2 this), if_pos ha]
        simp
      · have : len (asBytes (doc.Metadata "a")) ≠ 0 := fun h => ha ((len_eq_zero_iff _).1 h)
        rw [if_pos this, if_neg ha]
        simp [String.append_assoc]
    cases rest with
    | nil =>
      have hlast : (k : Int) = (n : Int) - 1 := by
        simp only [List.length_cons, List.length_nil] at hk
        omega
      simp only [joinLoop, hentry, hlast, ne_eq, not_true_eq_false, if_false]
      simp [String.intercalate, String.intercalate.go, referenceOf]
    | cons b rest2 =>
      have hnot : (k : Int) ≠ (n : Int) - 1 := by
        simp only [List.length_cons] at hk
        omega
      have hk2 : (k + 1) + (b :: rest2).length = n := by
        simp only [List.length_cons] at hk ⊢
        omega
      rw [joinLoop]
      simp only [hentry, hnot, ne_eq, not_false_eq_true, if_true]
      rw [ih (k + 1) _ _ hk2]
      simp only [List.map_cons, intercalate_cons_cons, String.append_assoc, List.append_assoc,
        List.singleton_append, referenceOf]

theorem joinDocuments_text_eq (c : KnowledgeBaseStuffDocuments) (docs : List schema.Document) :
    (joinDocuments c docs).2 =
      String.intercalate c.StuffDocuments.Separator (docs.map entryOf) := by
  simp [joinDocuments, joinLoop_eq c.StuffDocuments.Separator docs.length docs 0 "" c.References]

theorem joinDocuments_refs_eq (c : KnowledgeBaseStuffDocuments) (docs : List schema.Document) :
    (joinDocuments c docs).1.References = c.References ++ docs.map referenceOf := by
  simp only [joinDocuments,
    joinLoop_eq c.StuffDocuments.Separator docs.length docs 0 "" c.References (by simp)]
  split_ifs <;> rfl

theorem joinDocuments_flag_eq (c : KnowledgeBaseStuffDocuments) (docs : List schema.Document) :
    (joinDocuments c docs).1.isDocNullReturn =
      (c.isDocNullReturn || decide ((joinDocuments c docs).2 = "")) := by
  simp only [joinDocuments, len_eq_zero_iff]
  split_ifs with h <;> simp [h]

theorem joinDocuments_frame (c : KnowledgeBaseStuffDocuments) (docs : List schema.Document) :
    (joinDocuments c docs).1.StuffDocuments = c.StuffDocuments ∧
      (joinDocuments c docs).1.DocNullReturn = c.DocNullReturn := by
  simp only [joinDocuments]
  split_ifs <;> exact ⟨rfl, rfl⟩

end retriever

end Arcadia

namespace Arcadia

namespace retriever

/-! ## Unquoting -/

theorem hasPrefix_quote_iff (s : String) :
    strings.HasPrefix s "\"" = true ↔ s.data.head? = some '"' := by
  unfold strings.HasPrefix
  have hq : ("\"" : String).data = ['"'] := rfl
  rw [hq]
  cases s.data with
  | nil => simp [List.isPrefixOf]
  | cons a l =>
    simp only [List.isPrefixOf, List.head?_cons, Option.some.injEq, Bool.and_true, beq_iff_eq]
    exact eq_comm

theorem hasSuffix_quote_iff (s : String) :
    strings.HasSuffix s "\"" = true ↔ s.data.getLast? = some '"' := by
  unfold strings.HasSuffix
  have hq : ("\"" : String).data = ['"'] := rfl
  rw [hq]
  rcases List.eq_nil_or_concat s.data with h | ⟨m, x, h⟩
  · rw [h]
    simp [List.isSuffixOf, List.isPrefixOf]
  · rw [h]
    simp [List.isSuffixOf, List.isPrefixOf, List.concat_eq_append]
    exact eq_comm

theorem trimSuffix_quote_data (s : String) :
    (strings.TrimSuffix s "\"").data =
      if s.data.getLast? = some '"' then s.data.dropLast else s.data := by
  unfold strings.TrimSuffix
  by_cases h : s.data.getLast? = some '"'
  · rw [if_pos ((hasSuffix_quote_iff s).2 h), if_pos h]
    have hq : ("\"" : String).data.length = 1 := rfl
    rw [hq, List.dropLast_eq_take]
  · have : ¬ strings.HasSuffix s "\"" = true := fun h2 => h ((hasSuffix_quote_iff s).1 h2)
    rw [if_neg this, if_neg h]

theorem trimPrefix_quote_data (s : String) :
    (strings.TrimPrefix s "\"").data =
      if s.data.head? = some '"' then s.data.tail else s.data := by
  unfold strings.TrimPrefix
  by_cases h : s.data.head? = some '"'
  · rw [if_pos ((hasPrefix_quote_iff s).2 h), if_pos h]
    have hq : ("\"" : String).data.length = 1 := rfl
    rw [hq]
    simp
  · have : ¬ strings.HasPrefix s "\"" = true := fun h2 => h ((hasPrefix_quote_iff s).1 h2)
    rw [if_neg this, if_neg h]

theorem unquote_data (s : String) :
    (unquote s).data =
      if (if s.data.getLast? = some '"' then s.data.dropLast else s.data).head? = some '"'
      then (if s.data.getLast? = some '"' then s.data.dropLast else s.data).tail
      else (if s.data.getLast? = some '"' then s.data.dropLast else s.data) := by
  unfold unquote
  rw [trimPrefix_quote_data, trimSuffix_quote_data]

theorem unquote_eq_self (s : String) (h1 : s.data.head? ≠ some '"')
    (h2 : s.data.getLast? ≠ some '"') : unquote s = s := by
  apply String.ext
  rw [unquote_data, if_neg h2, if_neg h1]

end retriever

end Arcadia

namespace Arcadia

namespace retriever

/-! ## The claims about `joinDocuments` -/

/-- C1: on a freshly constructed assembler `joinDocuments` returns the entries of the hits
joined by the separator, with no separator after the last entry; the entry of a hit is its
content, followed by "\na: " and the unquoted answer only when the "a" attribute is
non-empty.  In particular the hits "Q1" (answer "\"A1\"") and "Q2" (no attributes) with the
separator "\n---\n" give "Q1\na: A1\n---\nQ2". -/
theorem joinDocuments_joins_entries (newStuff : chains.LLMChain → chains.StuffDocuments)
    (llmChain : chains.LLMChain) (docNullReturn : String) (hits : List schema.Document) :
    (joinDocuments (NewStuffDocuments newStuff llmChain docNullReturn) hits).2 =
        String.intercalate (newStuff llmChain).Separator
          (hits.map fun h => h.PageContent ++
            (if asBytes (h.Metadata "a") = "" then ""
             else "\na: " ++ unquote (asBytes (h.Metadata "a")))) ∧
      (joinDocuments (NewStuffDocuments (stuffWith "\n---\n") llmChain docNullReturn)
          [hitQ1, hitQ2]).2 = "Q1\na: A1\n---\nQ2" := by
  constructor
  · rw [joinDocuments_text_eq]
    rfl
  · rw [joinDocuments_text_eq]
    show String.intercalate "\n---\n" (List.map entryOf [hitQ1, hitQ2]) = "Q1\na: A1\n---\nQ2"
    decide

/-- C2: after `joinDocuments` on a fresh assembler the reference list has exactly one entry
per input hit. -/
theorem references_length_eq_hits (newStuff : chains.LLMChain → chains.StuffDocuments)
    (llmChain : chains.LLMChain) (docNullReturn : String) (hits : List schema.Document) :
    (joinDocuments (NewStuffDocuments newStuff llmChain docNullReturn) hits).1.References.length =
      hits.length := by
  rw [joinDocuments_refs_eq]
  simp [NewStuffDocuments]

theorem asBytes_of_bytes (v : Option Any) (b : String) (h : v = some (Any.bytes b)) :
    asBytes v = b := by
  rw [h]
  rfl

theorem asBytes_of_not_bytes (v : Option Any) (h : ∀ b, v ≠ some (Any.bytes b)) :
    asBytes v = "" := by
  cases v with
  | none => rfl
  | some a =>
    cases a with
    | bytes b => exact absurd rfl (h b)
    | string s => rfl
    | other t => rfl

/-- C3: after `joinDocuments` on a fresh assembler there is one reference per hit, at the
index of the hit, built from that hit alone: the question is the raw content and the score
the hit's score; the answer is the unquoted bytes of the "a" attribute, the file path the
unquoted bytes of the "fileName" attribute and the line number what `Atoi` gives for the
bytes of the "lineNumber" attribute; an attribute that is absent or is not a byte slice
gives the empty answer, the empty file path and the line number 0, and the reference is
emitted all the same. -/
theorem references_follow_hits (newStuff : chains.LLMChain → chains.StuffDocuments)
    (llmChain : chains.LLMChain) (docNullReturn : String) (hits : List schema.Document)
    (i : Nat) (h : schema.Document) (hi : hits[i]? = some h) :
    (joinDocuments (NewStuffDocuments newStuff llmChain docNullReturn) hits).1.References.length =
        hits.length ∧
      ∃ r, (joinDocuments (NewStuffDocuments newStuff llmChain docNullReturn)
          hits).1.References[i]? = some r ∧
        r.Question = h.PageContent ∧
        r.Score = h.Score ∧
        (∀ a, h.Metadata "a" = some (Any.bytes a) → r.Answer = unquote a) ∧
        ((∀ a, h.Metadata "a" ≠ some (Any.bytes a)) → r.Answer = "") ∧
        (∀ f, h.Metadata "fileName" = some (Any.bytes f) → r.FilePath = unquote f) ∧
        ((∀ f, h.Metadata "fileName" ≠ some (Any.bytes f)) → r.FilePath = "") ∧
        (∀ n, h.Metadata "lineNumber" = some (Any.bytes n) →
          r.LineNumber = (strconv.Atoi n).1) ∧
        ((∀ n, h.Metadata "lineNumber" ≠ some (Any.bytes n)) → r.LineNumber = 0) := by
  have hrefs := joinDocuments_refs_eq (NewStuffDocuments newStuff llmChain docNullReturn) hits
  constructor
  · rw [hrefs]
    simp [NewStuffDocuments]
  · refine ⟨referenceOf h, ?_, rfl, rfl, ?_, ?_, ?_, ?_, ?_, ?_⟩
    · rw [hrefs]
      simp [NewStuffDocuments, hi]
    · intro a ha
      simp only [referenceOf, asBytes_of_bytes _ a ha]
    · intro ha
      simp only [referenceOf, asBytes_of_not_bytes _ ha]
      decide
    · intro f hf
      simp only [referenceOf, asBytes_of_bytes _ f hf]
    · intro hf
      simp only [referenceOf, asBytes_of_not_bytes _ hf]
      decide
    · intro n hn
      simp only [referenceOf, asBytes_of_bytes _ n hn]
    · intro hn
      simp only [referenceOf, asBytes_of_not_bytes _ hn]
      decide

/-- Witness of C3: a blank hit followed by a hit with all three attributes; the second
reference holds "A1", "qa.csv" and 7, the first one only empty fields. -/
theorem references_follow_hits_witness :
    (∃ r, (joinDocuments (NewStuffDocuments (stuffWith "\n\n") llmText "none")
          [hitBlank, hitCited]).1.References[1]? = some r ∧
        r.Question = "Q1" ∧ r.Answer = "A1" ∧ r.FilePath = "qa.csv" ∧ r.LineNumber = 7) ∧
      (∃ r, (joinDocuments (NewStuffDocuments (stuffWith "\n\n") llmText "none")
          [hitBlank, hitCited]).1.References[0]? = some r ∧
        r.Question = "" ∧ r.Answer = "" ∧ r.FilePath = "" ∧ r.LineNumber = 0) := by
  constructor
  · obtain ⟨r, hr, hq, -, ha, -, hf, -, hn, -⟩ :=
      (references_follow_hits (stuffWith "\n\n") llmText "none" [hitBlank, hitCited] 1
        hitCited rfl).2
    refine ⟨r, hr, hq, ?_, ?_, ?_⟩
    · rw [ha "\"A1\"" rfl]
      decide
    · rw [hf "\"qa.csv\"" rfl]
      decide
    · rw [hn "7" rfl]
      decide
  · obtain ⟨r, hr, hq, -, -, ha, -, hf, -, hn⟩ :=
      (references_follow_hits (stuffWith "\n\n") llmText "none" [hitBlank, hitCited] 0
        hitBlank rfl).2
    exact ⟨r, hr, hq, ha (fun _ h => Option.noConfusion h),
      hf (fun _ h => Option.noConfusion h), hn (fun _ h => Option.noConfusion h)⟩

/-- C4, as the code has it: after `joinDocuments` the flag `isDocNullReturn` is true exactly
when the returned text has length zero or the flag was already true before the call,
whatever the separator and the reference list hold; so on the assembler that
`NewStuffDocuments` builds it is true exactly when the returned text has length zero. -/
theorem joinDocuments_flag_iff (c : KnowledgeBaseStuffDocuments)
    (newStuff : chains.LLMChain → chains.StuffDocuments) (llmChain : chains.LLMChain)
    (docNullReturn : String) (hits : List schema.Document) :
    ((joinDocuments c hits).1.isDocNullReturn = true ↔
        c.isDocNullReturn = true ∨ len (joinDocuments c hits).2 = 0) ∧
      ((joinDocuments (NewStuffDocuments newStuff llmChain docNullReturn)
          hits).1.isDocNullReturn = true ↔
        len (joinDocuments (NewStuffDocuments newStuff llmChain docNullReturn) hits).2 = 0) := by
  constructor
  · rw [joinDocuments_flag_eq, len_eq_zero_iff]
    simp
  · rw [joinDocuments_flag_eq, len_eq_zero_iff]
    simp [NewStuffDocuments]

/-- C4 fails as stated: on an assembler that has joined zero hits before, joining the hit
"Q2" returns the text "Q2", of non-zero length, and the flag is true. -/
theorem joinDocuments_flag_counterexample :
    (joinDocuments (joinDocuments (NewStuffDocuments (stuffWith "\n---\n") llmText "none") []).1
        [hitQ2]).1.isDocNullReturn = true ∧
      (joinDocuments (joinDocuments (NewStuffDocuments (stuffWith "\n---\n") llmText "none") []).1
        [hitQ2]).2 = "Q2" ∧
      ¬ ((joinDocuments
            (joinDocuments (NewStuffDocuments (stuffWith "\n---\n") llmText "none") []).1
            [hitQ2]).1.isDocNullReturn = true ↔
          len (joinDocuments
            (joinDocuments (NewStuffDocuments (stuffWith "\n---\n") llmText "none") []).1
            [hitQ2]).2 = 0) := by
  decide

theorem entryOf_eq_empty_iff (h : schema.Document) :
    entryOf h = "" ↔ h.PageContent = "" ∧ asBytes (h.Metadata "a") = "" := by
  unfold entryOf
  rw [append_eq_empty_iff]
  by_cases ha : asBytes (h.Metadata "a") = ""
  · simp [ha]
  · rw [if_neg ha, append_eq_empty_iff]
    have : ("\na: " : String) ≠ "" := by decide
    simp [ha, this]

/-- C5, as the code has it: the joined text has zero length, and with it the flag of a
fresh assembler is set, exactly when every hit has empty content and an empty or absent
"a" attribute and, besides, there is at most one hit or the separator is empty. -/
theorem joinDocuments_text_empty_iff (newStuff : chains.LLMChain → chains.StuffDocuments)
    (llmChain : chains.LLMChain) (docNullReturn : String) (hits : List schema.Document) :
    (len (joinDocuments (NewStuffDocuments newStuff llmChain docNullReturn) hits).2 = 0 ↔
        (∀ h ∈ hits, h.PageContent = "" ∧ asBytes (h.Metadata "a") = "") ∧
          (hits.length ≤ 1 ∨ (newStuff llmChain).Separator = "")) ∧
      ((joinDocuments (NewStuffDocuments newStuff llmChain docNullReturn)
          hits).1.isDocNullReturn = true ↔
        (∀ h ∈ hits, h.PageContent = "" ∧ asBytes (h.Metadata "a") = "") ∧
          (hits.length ≤ 1 ∨ (newStuff llmChain).Separator = "")) := by
  have key : len (joinDocuments (NewStuffDocuments newStuff llmChain docNullReturn) hits).2 = 0 ↔
      (∀ h ∈ hits, h.PageContent = "" ∧ asBytes (h.Metadata "a") = "") ∧
        (hits.length ≤ 1 ∨ (newStuff llmChain).Separator = "") := by
    rw [len_eq_zero_iff, joinDocuments_text_eq, intercalate_eq_empty_iff]
    simp only [List.mem_map, forall_exists_index, and_imp, forall_apply_eq_imp_iff₂,
      entryOf_eq_empty_iff, List.length_map]
    rfl
  refine ⟨key, ?_⟩
  rw [← key, joinDocuments_flag_eq, len_eq_zero_iff]
  simp [NewStuffDocuments]

/-- C5 fails as stated: two hits with empty content and the separator "\n---\n" give the
text "\n---\n", and one hit with empty content and the answer "A1" gives "\na: A1"; in both
cases every hit has empty content, the text is not empty and the flag stays unset. -/
theorem joinDocuments_text_empty_counterexample :
    ((∀ h ∈ [hitBlank, hitBlank], h.PageContent = "") ∧
        (joinDocuments (NewStuffDocuments (stuffWith "\n---\n") llmText "none")
          [hitBlank, hitBlank]).2 = "\n---\n" ∧
        len (joinDocuments (NewStuffDocuments (stuffWith "\n---\n") llmText "none")
          [hitBlank, hitBlank]).2 ≠ 0 ∧
        (joinDocuments (NewStuffDocuments (stuffWith "\n---\n") llmText "none")
          [hitBlank, hitBlank]).1.isDocNullReturn = false) ∧
      ((∀ h ∈ [hitAnswerOnly], h.PageContent = "") ∧
        (joinDocuments (NewStuffDocuments (stuffWith "\n---\n") llmText "none")
          [hitAnswerOnly]).2 = "\na: A1" ∧
        len (joinDocuments (NewStuffDocuments (stuffWith "\n---\n") llmText "none")
          [hitAnswerOnly]).2 ≠ 0 ∧
        (joinDocuments (NewStuffDocuments (stuffWith "\n---\n") llmText "none")
          [hitAnswerOnly]).1.isDocNullReturn = false) := by
  decide

end retriever

end Arcadia

namespace Arcadia

namespace retriever

/-! ## The fallback rewrite and the reuse of an assembler -/

/-- C6: on a fresh assembler, joining zero hits gives the empty text, no references and the
flag set, and the chain-end handler then leaves the chain's output field equal to
`DocNullReturn`, whatever output map the completion step produced. -/
theorem zero_hits_fallback (newStuff : chains.LLMChain → chains.StuffDocuments)
    (llmChain : chains.LLMChain) (docNullReturn : String) (outputValues : GoMap) :
    (joinDocuments (NewStuffDocuments newStuff llmChain docNullReturn) []).2 = "" ∧
      (joinDocuments (NewStuffDocuments newStuff llmChain docNullReturn) []).1.References = [] ∧
      (joinDocuments (NewStuffDocuments newStuff llmChain docNullReturn)
        []).1.isDocNullReturn = true ∧
      HandleChainEnd (joinDocuments (NewStuffDocuments newStuff llmChain docNullReturn) []).1
        outputValues (newStuff llmChain).LLMChain.OutputKey = some (Any.string docNullReturn) := by
  refine ⟨rfl, rfl, rfl, ?_⟩
  simp [HandleChainEnd, joinDocuments, joinLoop, NewStuffDocuments, GoMap.set, len, bytesOf]

/-- C7: `HandleChainEnd` rewrites only on the flag and only the output field.  With the flag
set, the value under the chain's output key becomes `DocNullReturn` and every other key
keeps its value; with the flag unset the output map is unchanged. -/
theorem HandleChainEnd_frame (c : KnowledgeBaseStuffDocuments) (outputValues : GoMap) :
    (c.isDocNullReturn = true →
        HandleChainEnd c outputValues c.StuffDocuments.LLMChain.OutputKey =
            some (Any.string c.DocNullReturn) ∧
          ∀ k : String, k ≠ c.StuffDocuments.LLMChain.OutputKey →
            HandleChainEnd c outputValues k = outputValues k) ∧
      (c.isDocNullReturn = false → HandleChainEnd c outputValues = outputValues) := by
  constructor
  · intro h
    constructor
    · simp [HandleChainEnd, h, GoMap.set]
    · intro k hk
      simp [HandleChainEnd, h, GoMap.set, hk]
  · intro h
    simp [HandleChainEnd, h]

/-- Witness of C7: an assembler with the flag set rewrites "text" and keeps "usage"; a
fresh one leaves the map alone. -/
theorem HandleChainEnd_frame_witness :
    (HandleChainEnd (joinDocuments (NewStuffDocuments (stuffWith "\n\n") llmText "none") []).1
          outText "text" = some (Any.string "none") ∧
        HandleChainEnd (joinDocuments (NewStuffDocuments (stuffWith "\n\n") llmText "none") []).1
          outText "usage" = outText "usage") ∧
      HandleChainEnd (NewStuffDocuments (stuffWith "\n\n") llmText "none") outText = outText :=
  ⟨⟨((HandleChainEnd_frame
        (joinDocuments (NewStuffDocuments (stuffWith "\n\n") llmText "none") []).1
        outText).1 rfl).1,
    ((HandleChainEnd_frame
        (joinDocuments (NewStuffDocuments (stuffWith "\n\n") llmText "none") []).1
        outText).1 rfl).2 "usage" (by decide)⟩,
   (HandleChainEnd_frame (NewStuffDocuments (stuffWith "\n\n") llmText "none") outText).2 rfl⟩

/-- C8, as the code has it: when two hit sequences are joined one after the other on the
same assembler, the text returned by the second call is that of the second sequence alone,
but the reference list after it holds the references of the first sequence followed by
those of the second (its length is the sum of the two hit counts), and the flag is set
exactly when the text of the first or of the second call was empty. -/
theorem joinDocuments_twice (newStuff : chains.LLMChain → chains.StuffDocuments)
    (llmChain : chains.LLMChain) (docNullReturn : String) (hits1 hits2 : List schema.Document) :
    (joinDocuments
          (joinDocuments (NewStuffDocuments newStuff llmChain docNullReturn) hits1).1 hits2).2 =
        (joinDocuments (NewStuffDocuments newStuff llmChain docNullReturn) hits2).2 ∧
      (joinDocuments
          (joinDocuments (NewStuffDocuments newStuff llmChain docNullReturn) hits1).1
          hits2).1.References =
        (joinDocuments (NewStuffDocuments newStuff llmChain docNullReturn) hits1).1.References ++
          (joinDocuments (NewStuffDocuments newStuff llmChain docNullReturn) hits2).1.References ∧
      (joinDocuments
          (joinDocuments (NewStuffDocuments newStuff llmChain docNullReturn) hits1).1
          hits2).1.References.length = hits1.length + hits2.length ∧
      ((joinDocuments
          (joinDocuments (NewStuffDocuments newStuff llmChain docNullReturn) hits1).1
          hits2).1.isDocNullReturn = true ↔
        len (joinDocuments (NewStuffDocuments newStuff llmChain docNullReturn) hits1).2 = 0 ∨
          len (joinDocuments
            (joinDocuments (NewStuffDocuments newStuff llmChain docNullReturn) hits1).1
            hits2).2 = 0) := by
  have hsep : (joinDocuments (NewStuffDocuments newStuff llmChain docNullReturn)
      hits1).1.StuffDocuments = (NewStuffDocuments newStuff llmChain docNullReturn).StuffDocuments :=
    (joinDocuments_frame _ _).1
  refine ⟨?_, ?_, ?_, ?_⟩
  · rw [joinDocuments_text_eq, joinDocuments_text_eq, hsep]
  · simp [joinDocuments_refs_eq, NewStuffDocuments]
  · simp [joinDocuments_refs_eq, NewStuffDocuments]
  · rw [joinDocuments_flag_eq, joinDocuments_flag_eq, len_eq_zero_iff, len_eq_zero_iff]
    simp [NewStuffDocuments]

/-- C8 fails as stated: after joining one blank hit and then the hit "Q2" on the same
assembler, the reference list has two entries for the one hit of the second call, and the
flag is set although the second text is "Q2"; a fresh assembler joining "Q2" alone has one
reference and the flag unset. -/
theorem joinDocuments_twice_counterexample :
    (joinDocuments
          (joinDocuments (NewStuffDocuments (stuffWith "\n---\n") llmText "none") [hitBlank]).1
          [hitQ2]).1.References.length = 2 ∧
      [hitQ2].length = 1 ∧
      (joinDocuments
          (joinDocuments (NewStuffDocuments (stuffWith "\n---\n") llmText "none") [hitBlank]).1
          [hitQ2]).2 = "Q2" ∧
      (joinDocuments
          (joinDocuments (NewStuffDocuments (stuffWith "\n---\n") llmText "none") [hitBlank]).1
          [hitQ2]).1.isDocNullReturn = true ∧
      (joinDocuments (NewStuffDocuments (stuffWith "\n---\n") llmText "none")
          [hitQ2]).1.References.length = 1 ∧
      (joinDocuments (NewStuffDocuments (stuffWith "\n---\n") llmText "none")
          [hitQ2]).1.isDocNullReturn = false := by
  decide

/-! ## The claims about unquoting -/

/-- C9, as the code has it: unquoting strips one trailing double quote if the string ends
with one and, independently, one leading double quote if what is left starts with one.  So
a string that starts and ends with a quote loses both, a string with only the trailing
quote loses that one, a string with only the leading quote loses that one, and a string
with neither is returned unchanged. -/
theorem unquote_strips_each_quote (s : String) (m : List Char) :
    (s.data = '"' :: (m ++ ['"']) → (unquote s).data = m) ∧
      (s.data = m ++ ['"'] → m.head? ≠ some '"' → (unquote s).data = m) ∧
      (s.data = '"' :: m → s.data.getLast? ≠ some '"' → (unquote s).data = m) ∧
      (s.data.head? ≠ some '"' → s.data.getLast? ≠ some '"' → unquote s = s) := by
  refine ⟨?_, ?_, ?_, ?_⟩
  · intro h
    have hc : '"' :: (m ++ ['"']) = ('"' :: m) ++ ['"'] := rfl
    have hl : s.data.getLast? = some '"' := by
      rw [h, hc, List.getLast?_concat]
    have hd : s.data.dropLast = '"' :: m := by
      rw [h, hc, List.dropLast_concat]
    rw [unquote_data, if_pos hl, hd]
    simp
  · intro h hm
    have hl : s.data.getLast? = some '"' := by
      rw [h, List.getLast?_concat]
    have hd : s.data.dropLast = m := by
      rw [h, List.dropLast_concat]
    rw [unquote_data, if_pos hl, hd, if_neg hm]
  · intro h hl
    rw [unquote_data, if_neg hl, h]
    simp
  · intro h1 h2
    exact unquote_eq_self s h1 h2

/-- Witness of C9: the four cases on "\"A1\"", "A1\"", "\"A1" and "A1". -/
theorem unquote_strips_each_quote_witness :
    (unquote "\"A1\"").data = ['A', '1'] ∧
      (unquote "A1\"").data = ['A', '1'] ∧
      (unquote "\"A1").data = ['A', '1'] ∧
      unquote "A1" = "A1" :=
  ⟨(unquote_strips_each_quote "\"A1\"" ['A', '1']).1 rfl,
   (unquote_strips_each_quote "A1\"" ['A', '1']).2.1 rfl (by decide),
   (unquote_strips_each_quote "\"A1" ['A', '1']).2.2.1 rfl (by decide),
   (unquote_strips_each_quote "A1" []).2.2.2 (by decide) (by decide)⟩

/-- C9 fails as stated: "\"A1" has a leading quote and no trailing one, yet unquoting does
not leave it unchanged but strips the leading quote; likewise "A1\"" loses its trailing
quote. -/
theorem unquote_counterexample :
    (strings.HasPrefix "\"A1" "\"" = true ∧ strings.HasSuffix "\"A1" "\"" = false ∧
        unquote "\"A1" = "A1" ∧ unquote "\"A1" ≠ "\"A1") ∧
      (strings.HasPrefix "A1\"" "\"" = false ∧ strings.HasSuffix "A1\"" "\"" = true ∧
        unquote "A1\"" = "A1" ∧ unquote "A1\"" ≠ "A1\"") := by
  decide

/-- C10: a string that neither begins nor ends with a double quote is returned unchanged by
unquoting, so unquoting it twice is the same as unquoting it once. -/
theorem unquote_unquoted (s : String) (hhead : s.data.head? ≠ some '"')
    (hlast : s.data.getLast? ≠ some '"') :
    unquote s = s ∧ unquote (unquote s) = unquote s := by
  have h := unquote_eq_self s hhead hlast
  exact ⟨h, by rw [h, h]⟩

/-- Witness of C10: the string "A1". -/
theorem unquote_unquoted_witness :
    unquote "A1" = "A1" ∧ unquote (unquote "A1") = unquote "A1" :=
  unquote_unquoted "A1" (by decide) (by decide)

end retriever

end Arcadia

namespace Arcadia

/-! ## `strconv.Atoi` against its description -/

theorem charBytes_lt (c : Char) : ∀ b ∈ charBytes c, b < 256 := by
  have hv : c.toNat < 0x110000 := by
    have h := c.valid
    simp only [Char.toNat]
    rcases h with h | ⟨_, h⟩
    · have : c.val.toNat < 0xd800 := h
      omega
    · exact h
  intro b hb
  unfold charBytes at hb
  simp only [] at hb
  split_ifs at hb <;> simp only [List.mem_cons, List.mem_singleton, List.not_mem_nil,
    or_false] at hb <;> omega

theorem bytesOf_lt (s : String) : ∀ b ∈ bytesOf s, b < 256 := by
  intro b hb
  unfold bytesOf at hb
  rw [List.mem_flatMap] at hb
  obtain ⟨c, _, hc⟩ := hb
  exact charBytes_lt c b hc

namespace strconv

theorem isDigitByte_iff (c : Nat) : isDigitByte c = true ↔ 48 ≤ c ∧ c ≤ 57 := by
  simp [isDigitByte]

theorem isDigitByte_false_iff (c : Nat) : isDigitByte c = false ↔ c < 48 ∨ 57 < c := by
  rw [← Bool.not_eq_true, isDigitByte_iff]
  omega

theorem decimalFrom_nil (n : Nat) : decimalFrom n [] = n := rfl

theorem decimalFrom_cons (n c : Nat) (ds : List Nat) :
    decimalFrom n (c :: ds) = decimalFrom (n * 10 + (c - 48)) ds := rfl

theorem le_decimalFrom (ds : List Nat) : ∀ n, n ≤ decimalFrom n ds := by
  induction ds with
  | nil => intro n; exact Nat.le_refl n
  | cons c ds ih =>
    intro n
    rw [decimalFrom_cons]
    have := ih (n * 10 + (c - 48))
    omega

theorem decimalFrom_lt (ds : List Nat) (hd : ∀ c ∈ ds, isDigitByte c = true) :
    ∀ n, decimalFrom n ds < (n + 1) * 10 ^ ds.length := by
  induction ds with
  | nil => intro n; simp [decimalFrom_nil]
  | cons c ds ih =>
    intro n
    rw [decimalFrom_cons]
    have hc := (isDigitByte_iff c).1 (hd c (List.mem_cons_self c ds))
    have h1 := ih (fun x hx => hd x (List.mem_cons_of_mem c hx)) (n * 10 + (c - 48))
    have h2 : (n * 10 + (c - 48) + 1) * 10 ^ ds.length ≤ (n + 1) * 10 ^ (c :: ds).length := by
      rw [List.length_cons, pow_succ]
      have : n * 10 + (c - 48) + 1 ≤ (n + 1) * 10 := by omega
      calc (n * 10 + (c - 48) + 1) * 10 ^ ds.length
          ≤ ((n + 1) * 10) * 10 ^ ds.length := Nat.mul_le_mul_right _ this
        _ = (n + 1) * (10 ^ ds.length * 10) := by ring
    omega

theorem digitOf_of_digit (c : Nat) (h : isDigitByte c = true) : digitOf c = some (c - 48) := by
  have := (isDigitByte_iff c).1 h
  simp [digitOf, this]

theorem digitOf_of_not_digit (c : Nat) (h : isDigitByte c = false) :
    ∀ d, digitOf c = some d → 10 ≤ d := by
  have hc := (isDigitByte_false_iff c).1 h
  intro d hd
  unfold digitOf at hd
  have hn : ¬ (48 ≤ c ∧ c ≤ 57) := by omega
  rw [if_neg hn] at hd
  split_ifs at hd
  · simp only [Option.some.injEq] at hd
    omega

end strconv

end Arcadia

namespace Arcadia

namespace strconv

theorem ParseUintLoop_eq (ds rest : List Nat) (hd : ∀ c ∈ ds, isDigitByte c = true)
    (hr : ∀ c, rest.head? = some c → isDigitByte c = false) :
    ∀ n, n < 18446744073709551616 →
      ParseUintLoop 10 1844674407370955162 18446744073709551615 (ds ++ rest) n =
        if 18446744073709551616 ≤ decimalFrom n ds
        then (18446744073709551615, some NumError.ErrRange)
        else if rest = [] then (decimalFrom n ds, none) else (0, some NumError.ErrSyntax) := by
  induction ds with
  | nil =>
    intro n hn
    rw [decimalFrom_nil, if_neg (by omega)]
    cases rest with
    | nil => simp [ParseUintLoop]
    | cons c r =>
      have hc := hr c rfl
      have h10 := digitOf_of_not_digit c hc
      simp only [List.nil_append, ParseUintLoop, reduceCtorEq, if_false]
      cases hdo : digitOf c with
      | none => rfl
      | some d =>
        have := h10 d hdo
        simp only [ge_iff_le, this, if_true]
  | cons c ds ih =>
    intro n hn
    have hcd := hd c (List.mem_cons_self c ds)
    have hc := (isDigitByte_iff c).1 hcd
    have hds : ∀ x ∈ ds, isDigitByte x = true := fun x hx => hd x (List.mem_cons_of_mem c hx)
    rw [decimalFrom_cons]
    have hle := le_decimalFrom ds (n * 10 + (c - 48))
    simp only [List.cons_append, ParseUintLoop, digitOf_of_digit c hcd]
    rw [if_neg (by omega)]
    by_cases hcut : n ≥ 1844674407370955162
    · rw [if_pos hcut, if_pos (by omega)]
    · rw [if_neg hcut]
      have h2 : (2 : Nat) ^ 64 = 18446744073709551616 := by norm_num
      rw [h2]
      by_cases hov : 18446744073709551616 ≤ n * 10 + (c - 48)
      · have hmod : (n * 10 + (c - 48)) % 18446744073709551616 < n * 10 := by omega
        rw [if_pos (Or.inl hmod), if_pos (by omega)]
      · have hmod : (n * 10 + (c - 48)) % 18446744073709551616 = n * 10 + (c - 48) :=
          Nat.mod_eq_of_lt (by omega)
        rw [hmod, if_neg (by omega)]
        exact ih hds (n * 10 + (c - 48)) (by omega)

theorem atoiFastLoop_digits (ds : List Nat) (hd : ∀ c ∈ ds, isDigitByte c = true) :
    ∀ n : Nat, atoiFastLoop ds (n : Int) = some ((decimalFrom n ds : Nat) : Int) := by
  induction ds with
  | nil => intro n; rfl
  | cons c ds ih =>
    intro n
    have hc := (isDigitByte_iff c).1 (hd c (List.mem_cons_self c ds))
    have hds : ∀ x ∈ ds, isDigitByte x = true := fun x hx => hd x (List.mem_cons_of_mem c hx)
    have hmod : (c + 256 - 48) % 256 = c - 48 := by omega
    simp only [atoiFastLoop, hmod]
    rw [if_neg (by omega), decimalFrom_cons, ← ih hds (n * 10 + (c - 48))]
    congr 1

theorem atoiFastLoop_not_digit (ds : List Nat) (c : Nat) (rest : List Nat)
    (hd : ∀ x ∈ ds, isDigitByte x = true) (hc : isDigitByte c = false) (hlt : c < 256) :
    ∀ n : Int, atoiFastLoop (ds ++ c :: rest) n = none := by
  induction ds with
  | nil =>
    intro n
    have := (isDigitByte_false_iff c).1 hc
    simp only [List.nil_append, atoiFastLoop]
    rw [if_pos (by omega)]
  | cons x ds ih =>
    intro n
    have hx := (isDigitByte_iff x).1 (hd x (List.mem_cons_self x ds))
    have hds : ∀ y ∈ ds, isDigitByte y = true := fun y hy => hd y (List.mem_cons_of_mem x hy)
    simp only [List.cons_append, atoiFastLoop]
    rw [if_neg (by omega)]
    exact ih hds _

end strconv

end Arcadia

namespace Arcadia

namespace strconv

theorem head?_dropWhile_digit (body : List Nat) :
    ∀ c, (body.dropWhile isDigitByte).head? = some c → isDigitByte c = false := by
  intro c hc
  have h := List.head?_dropWhile_not isDigitByte body
  rw [hc] at h
  simpa using h

theorem ParseUint_eq (body : List Nat) :
    ParseUint body =
      if 18446744073709551616 ≤ decimalFrom 0 (body.takeWhile isDigitByte)
      then (18446744073709551615, some NumError.ErrRange)
      else if body.takeWhile isDigitByte = [] ∨ body.dropWhile isDigitByte ≠ []
      then (0, some NumError.ErrSyntax)
      else (decimalFrom 0 (body.takeWhile isDigitByte), none) := by
  have hsplit : body.takeWhile isDigitByte ++ body.dropWhile isDigitByte = body :=
    List.takeWhile_append_dropWhile isDigitByte body
  have hd : ∀ c ∈ body.takeWhile isDigitByte, isDigitByte c = true :=
    fun c hc => List.mem_takeWhile_imp hc
  have hloop := ParseUintLoop_eq (body.takeWhile isDigitByte) (body.dropWhile isDigitByte) hd
    (head?_dropWhile_digit body) 0 (by omega)
  rw [hsplit] at hloop
  have hc1 : (2 ^ 64 - 1) / 10 + 1 = 1844674407370955162 := by norm_num
  have hc2 : 2 ^ IntSize - 1 = 18446744073709551615 := by norm_num [IntSize]
  unfold ParseUint
  rw [hc1, hc2, hloop]
  by_cases hb : body = []
  · subst hb
    simp [decimalFrom_nil]
  · rw [if_neg hb]
    by_cases hv : 18446744073709551616 ≤ decimalFrom 0 (body.takeWhile isDigitByte)
    · rw [if_pos hv, if_pos hv]
    · rw [if_neg hv, if_neg hv]
      by_cases hr : body.dropWhile isDigitByte = []
      · have hne : body.takeWhile isDigitByte ≠ [] := by
          intro h0
          rw [h0, hr] at hsplit
          exact hb hsplit.symm
        rw [if_pos hr, if_neg (by simp [hne, hr])]
      · rw [if_neg hr, if_pos (Or.inr hr)]

end strconv

end Arcadia

namespace Arcadia

namespace strconv

theorem ParseInt_fst_eq (b : List Nat) : (ParseInt b).1 = atoiValue b := by
  have hn63 : (2 : Nat) ^ 63 = 9223372036854775808 := by norm_num
  have hi63 : (2 : Int) ^ 63 = 9223372036854775808 := by norm_num
  have hn64 : (2 : Nat) ^ 64 = 18446744073709551616 := by norm_num
  unfold ParseInt atoiValue
  by_cases hb : b = []
  · subst hb
    simp [decimalFrom_nil]
  · rw [if_neg hb]
    have hbody : (if b.head? = some 43 then b.tail else if b.head? = some 45 then b.tail else b) =
        (if b.head? = some 45 ∨ b.head? = some 43 then b.tail else b) := by
      by_cases h43 : b.head? = some 43
      · simp [h43]
      · by_cases h45 : b.head? = some 45
        · simp [h45]
        · simp [h43, h45]
    simp only [hbody, IntSize, Nat.add_one_sub_one, hn63, hi63, hn64]
    generalize (if b.head? = some 45 ∨ b.head? = some 43 then b.tail else b) = body
    rw [ParseUint_eq body]
    generalize decimalFrom 0 (body.takeWhile isDigitByte) = v
    by_cases h45 : b.head? = some 45 <;>
      by_cases hv : 18446744073709551616 ≤ v <;>
      by_cases hs : (body.takeWhile isDigitByte = [] ∨ body.dropWhile isDigitByte ≠ []) <;>
      simp only [h45, hv, hs, if_true, if_false, reduceCtorEq, not_false_eq_true,
        Option.some.injEq, Nat.reduceEqDiff, and_self, and_true, true_and,
        false_and, decide_True, decide_False, Bool.not_true, Bool.not_false, Bool.false_eq_true,
        ge_iff_le, gt_iff_lt, Nat.reduceLeDiff, Nat.cast_ofNat] <;>
      (try split_ifs) <;> (try omega)

end strconv

end Arcadia

namespace Arcadia

namespace strconv

theorem atoiFast_eq (b : List Nat) (hb : ∀ x ∈ b, x < 256) (hlen : 0 < b.length ∧ b.length < 19) :
    (if (decide (b.head? = some 45 ∨ b.head? = some 43)) = true ∧
          (if (decide (b.head? = some 45 ∨ b.head? = some 43)) = true then b.tail else b).length < 1
      then ((0 : Int), some NumError.ErrSyntax)
      else
        match atoiFastLoop
            (if (decide (b.head? = some 45 ∨ b.head? = some 43)) = true then b.tail else b) 0 with
        | none => (0, some NumError.ErrSyntax)
        | some n => (if b.head? = some 45 then -n else n, none)).1 = atoiValue b := by
  have hn63 : (2 : Nat) ^ 63 = 9223372036854775808 := by norm_num
  have hi63 : (2 : Int) ^ 63 = 9223372036854775808 := by norm_num
  have hn64 : (2 : Nat) ^ 64 = 18446744073709551616 := by norm_num
  unfold atoiValue
  simp only [decide_eq_true_eq, hn63, hi63, hn64]
  have hbody_sub : ∀ x ∈ (if b.head? = some 45 ∨ b.head? = some 43 then b.tail else b),
      x ∈ b := by
    intro x hx
    split_ifs at hx
    · exact List.mem_of_mem_tail hx
    · exact hx
  have hbody_len : (if b.head? = some 45 ∨ b.head? = some 43 then b.tail else b).length ≤
      b.length := by
    split_ifs
    · simp
    · exact Nat.le_refl _
  have hbody_ne : ¬ (b.head? = some 45 ∨ b.head? = some 43) →
      (if b.head? = some 45 ∨ b.head? = some 43 then b.tail else b) ≠ [] := by
    intro h
    rw [if_neg h]
    intro h0
    rw [h0] at hlen
    simp at hlen
  generalize (if b.head? = some 45 ∨ b.head? = some 43 then b.tail else b) = body at *
  have hsplit : body.takeWhile isDigitByte ++ body.dropWhile isDigitByte = body :=
    List.takeWhile_append_dropWhile isDigitByte body
  have hd : ∀ c ∈ body.takeWhile isDigitByte, isDigitByte c = true :=
    fun c hc => List.mem_takeWhile_imp hc
  have hdlen : (body.takeWhile isDigitByte).length ≤ 18 := by
    have h := congrArg List.length hsplit
    rw [List.length_append] at h
    omega
  have hv : decimalFrom 0 (body.takeWhile isDigitByte) < 1000000000000000000 := by
    have h1 : decimalFrom 0 (body.takeWhile isDigitByte) <
        10 ^ (body.takeWhile isDigitByte).length := by
      simpa using decimalFrom_lt _ hd 0
    have h2 : 10 ^ (body.takeWhile isDigitByte).length ≤ 10 ^ 18 :=
      Nat.pow_le_pow_right (by norm_num) hdlen
    have h3 : (10 : Nat) ^ 18 = 1000000000000000000 := by norm_num
    rw [h3] at h2
    exact lt_of_lt_of_le h1 h2
  have hv64 : ¬ 18446744073709551616 ≤ decimalFrom 0 (body.takeWhile isDigitByte) := by omega
  by_cases hfirst : (b.head? = some 45 ∨ b.head? = some 43) ∧ body.length < 1
  · have hnil : body = [] := List.eq_nil_of_length_eq_zero (by omega)
    rw [if_pos hfirst, hnil]
    simp [decimalFrom_nil]
  · rw [if_neg hfirst, if_neg hv64]
    have hbne : body ≠ [] := by
      by_cases hs : b.head? = some 45 ∨ b.head? = some 43
      · intro h0
        apply hfirst
        rw [h0]
        exact ⟨hs, by simp⟩
      · exact hbody_ne hs
    by_cases hr : body.dropWhile isDigitByte = []
    · have hall : body.takeWhile isDigitByte = body := by
        rw [hr, List.append_nil] at hsplit
        exact hsplit
      rw [hall] at hd hv
      have hloop := atoiFastLoop_digits body hd 0
      rw [Nat.cast_zero] at hloop
      rw [hloop, hall, hr, if_neg (by simp [hbne])]
      by_cases h45 : b.head? = some 45
      · simp only [h45, if_true]
        rw [if_neg (by omega)]
      · simp only [h45, if_false]
        rw [if_neg (by omega)]
    · obtain ⟨c, r, hcr⟩ := List.exists_cons_of_ne_nil hr
      have hc : isDigitByte c = false := head?_dropWhile_digit body c (by rw [hcr]; rfl)
      have hcb : c < 256 := by
        apply hb c
        apply hbody_sub
        rw [← hsplit, hcr]
        simp
      have hloop := atoiFastLoop_not_digit (body.takeWhile isDigitByte) c r hd hc hcb 0
      rw [← hcr, hsplit] at hloop
      rw [hloop, if_pos (Or.inr hr)]

theorem Atoi_fst_eq (s : String) : (Atoi s).1 = atoiValue (bytesOf s) := by
  unfold Atoi
  simp only []
  by_cases hlen : 0 < (bytesOf s).length ∧ (bytesOf s).length < 19
  · rw [if_pos hlen]
    exact atoiFast_eq (bytesOf s) (bytesOf_lt s) hlen
  · rw [if_neg hlen]
    exact ParseInt_fst_eq (bytesOf s)


end strconv

end Arcadia

namespace Arcadia

namespace strconv

theorem atoiValue_nil : atoiValue [] = 0 := by
  simp [atoiValue, decimalFrom_nil]

theorem takeWhile_digits (ds : List Nat) (hd : ∀ c ∈ ds, isDigitByte c = true) :
    ds.takeWhile isDigitByte = ds ∧ ds.dropWhile isDigitByte = [] :=
  ⟨List.takeWhile_eq_self_iff.2 hd, List.dropWhile_eq_nil_iff.2 hd⟩

theorem atoiValue_digits (ds : List Nat) (hne : ds ≠ []) (hd : ∀ c ∈ ds, isDigitByte c = true) :
    atoiValue ds = if 2 ^ 63 ≤ decimalFrom 0 ds then 2 ^ 63 - 1 else (decimalFrom 0 ds : Int) := by
  obtain ⟨c, r, rfl⟩ := List.exists_cons_of_ne_nil hne
  have hc := (isDigitByte_iff c).1 (hd c (List.mem_cons_self c r))
  have h45 : ¬ (c :: r).head? = some 45 := by
    simp only [List.head?_cons, Option.some.injEq]
    omega
  have h43 : ¬ (c :: r).head? = some 43 := by
    simp only [List.head?_cons, Option.some.injEq]
    omega
  obtain ⟨ht, hdw⟩ := takeWhile_digits (c :: r) hd
  unfold atoiValue
  simp only [h45, h43, or_self, if_false, ht, hdw]
  have hn63 : (2 : Nat) ^ 63 = 9223372036854775808 := by norm_num
  have hi63 : (2 : Int) ^ 63 = 9223372036854775808 := by norm_num
  have hn64 : (2 : Nat) ^ 64 = 18446744073709551616 := by norm_num
  simp only [hn63, hi63, hn64, reduceCtorEq, ne_eq, not_true_eq_false, or_self, if_false]
  split_ifs <;> first | rfl | omega

theorem atoiValue_plus_digits (ds : List Nat) (hne : ds ≠ [])
    (hd : ∀ c ∈ ds, isDigitByte c = true) :
    atoiValue (43 :: ds) =
      if 2 ^ 63 ≤ decimalFrom 0 ds then 2 ^ 63 - 1 else (decimalFrom 0 ds : Int) := by
  obtain ⟨ht, hdw⟩ := takeWhile_digits ds hd
  unfold atoiValue
  have hn63 : (2 : Nat) ^ 63 = 9223372036854775808 := by norm_num
  have hi63 : (2 : Int) ^ 63 = 9223372036854775808 := by norm_num
  have hn64 : (2 : Nat) ^ 64 = 18446744073709551616 := by norm_num
  simp only [List.head?_cons, Option.some.injEq, Nat.reduceEqDiff, or_true, if_true, false_or,
    List.tail_cons, ht, hdw, hne, if_false, hn63, hi63, hn64, ne_eq, not_true_eq_false, or_self]
  split_ifs <;> first | rfl | omega

theorem atoiValue_minus_digits (ds : List Nat) (hne : ds ≠ [])
    (hd : ∀ c ∈ ds, isDigitByte c = true) :
    atoiValue (45 :: ds) =
      if 2 ^ 63 < decimalFrom 0 ds then -(2 ^ 63) else -(decimalFrom 0 ds : Int) := by
  obtain ⟨ht, hdw⟩ := takeWhile_digits ds hd
  unfold atoiValue
  have hn63 : (2 : Nat) ^ 63 = 9223372036854775808 := by norm_num
  have hi63 : (2 : Int) ^ 63 = 9223372036854775808 := by norm_num
  have hn64 : (2 : Nat) ^ 64 = 18446744073709551616 := by norm_num
  simp only [List.head?_cons, Option.some.injEq, Nat.reduceEqDiff, true_or, if_true,
    List.tail_cons, ht, hdw, hne, if_false, hn63, hi63, hn64, ne_eq, not_true_eq_false, or_self]
  split_ifs <;> first | rfl | omega

theorem atoiValue_not_digit (c : Nat) (rest : List Nat) (h45 : c ≠ 45) (h43 : c ≠ 43)
    (hc : isDigitByte c = false) : atoiValue (c :: rest) = 0 := by
  unfold atoiValue
  simp [h45, h43, hc, decimalFrom_nil]


end strconv

end Arcadia

namespace Arcadia

namespace retriever

/-! ## The line number of a reference -/

/-- C11, as the code has it: the line number of the reference of a hit is what `Atoi`
returns for the bytes `b` of its "lineNumber" attribute, the error being dropped.  It is 0
when the attribute is absent or empty and when, after an optional sign, the bytes do not
start with a digit (as in "abc"); for a run of digits, with or without sign, it is the
number they denote when that fits the 64-bit `int` ("7" gives 7), and otherwise the nearest
bound of `int`, 2^63 - 1 or -2^63, not 0. -/
theorem lineNumber_parsed (newStuff : chains.LLMChain → chains.StuffDocuments)
    (llmChain : chains.LLMChain) (docNullReturn : String) (hits : List schema.Document)
    (i : Nat) (h : schema.Document) (b : List Nat) (hi : hits[i]? = some h)
    (hb : bytesOf (asBytes (h.Metadata "lineNumber")) = b) :
    ∃ r, (joinDocuments (NewStuffDocuments newStuff llmChain docNullReturn)
          hits).1.References[i]? = some r ∧
      r.LineNumber = strconv.atoiValue b ∧
      (h.Metadata "lineNumber" = none → r.LineNumber = 0) ∧
      (b = [] → r.LineNumber = 0) ∧
      (∀ c rest, b = c :: rest → c ≠ 45 → c ≠ 43 → strconv.isDigitByte c = false →
        r.LineNumber = 0) ∧
      (∀ ds, ds ≠ [] → (∀ c ∈ ds, strconv.isDigitByte c = true) →
        (b = ds ∨ b = 43 :: ds →
          r.LineNumber =
            if 2 ^ 63 ≤ strconv.decimalFrom 0 ds then 2 ^ 63 - 1
            else (strconv.decimalFrom 0 ds : Int)) ∧
        (b = 45 :: ds →
          r.LineNumber =
            if 2 ^ 63 < strconv.decimalFrom 0 ds then -(2 ^ 63)
            else -(strconv.decimalFrom 0 ds : Int))) := by
  have hrefs := joinDocuments_refs_eq (NewStuffDocuments newStuff llmChain docNullReturn) hits
  have hval : (referenceOf h).LineNumber = strconv.atoiValue b := by
    rw [← hb]
    exact strconv.Atoi_fst_eq _
  refine ⟨referenceOf h, ?_, hval, ?_, ?_, ?_, ?_⟩
  · rw [hrefs]
    simp [NewStuffDocuments, hi]
  · intro hnone
    have hb0 : b = [] := by
      rw [← hb, hnone]
      rfl
    rw [hval, hb0, strconv.atoiValue_nil]
  · intro hb0
    rw [hval, hb0, strconv.atoiValue_nil]
  · intro c rest hcr h45 h43 hc
    rw [hval, hcr, strconv.atoiValue_not_digit c rest h45 h43 hc]
  · intro ds hne hd
    constructor
    · rintro (h1 | h1)
      · rw [hval, h1, strconv.atoiValue_digits ds hne hd]
      · rw [hval, h1, strconv.atoiValue_plus_digits ds hne hd]
    · intro h1
      rw [hval, h1, strconv.atoiValue_minus_digits ds hne hd]

/-- Witness of C11: the attribute "7" gives the line number 7 and the attribute "abc" the
line number 0. -/
theorem lineNumber_parsed_witness :
    (∃ r, (joinDocuments (NewStuffDocuments (stuffWith "\n\n") llmText "none")
          [hitLine "7"]).1.References[0]? = some r ∧ r.LineNumber = 7) ∧
      (∃ r, (joinDocuments (NewStuffDocuments (stuffWith "\n\n") llmText "none")
          [hitLine "abc"]).1.References[0]? = some r ∧ r.LineNumber = 0) := by
  constructor
  · obtain ⟨r, hr, -, -, -, -, hd⟩ := lineNumber_parsed (stuffWith "\n\n") llmText "none"
      [hitLine "7"] 0 (hitLine "7") [55] rfl (by decide)
    refine ⟨r, hr, ?_⟩
    rw [(hd [55] (by decide) (by decide)).1 (Or.inl rfl)]
    decide
  · obtain ⟨r, hr, -, -, -, hc, -⟩ := lineNumber_parsed (stuffWith "\n\n") llmText "none"
      [hitLine "abc"] 0 (hitLine "abc") [97, 98, 99] rfl (by decide)
    exact ⟨r, hr, hc 97 [98, 99] rfl (by decide) (by decide) (by decide)⟩

/-- C11 fails as stated: the digit strings "9223372036854775808" and
"-9223372036854775809" are out of the range of `int`, `Atoi` reports a range error for
them, and yet the line numbers are 9223372036854775807 and -9223372036854775808, not 0. -/
theorem lineNumber_out_of_range_counterexample :
    ((strconv.Atoi "9223372036854775808").2 = some strconv.NumError.ErrRange ∧
        ((joinDocuments (NewStuffDocuments (stuffWith "\n\n") llmText "none")
          [hitLine "9223372036854775808"]).1.References.map fun r => r.LineNumber) =
            [9223372036854775807]) ∧
      ((strconv.Atoi "-9223372036854775809").2 = some strconv.NumError.ErrRange ∧
        ((joinDocuments (NewStuffDocuments (stuffWith "\n\n") llmText "none")
          [hitLine "-9223372036854775809"]).1.References.map fun r => r.LineNumber) =
            [-9223372036854775808]) := by
  decide

end retriever

end Arcadia

namespace Arcadia

namespace retriever

/-! ## Resolution of a retriever -/

/-- C12: when the knowledge base has been loaded and its embedder reference or its
vector-store reference is absent, `NewKnowledgeBaseRetriever` returns the configuration
error and no retriever, and the only calls it has made are the two lookups of the retriever
declaration and of the knowledge base: neither the embedder nor the vector store is looked
up, wrapped or connected to. -/
theorem resolve_missing_reference (cli : Cluster) (baseNode : base.BaseNode)
    (obj1 obj2 : Unstructured) (inst : apiretriever.KnowledgeBaseRetriever)
    (kb : v1alpha1.KnowledgeBase)
    (h1 : cli.Get "knowledgebaseretrievers" (cli.GetNamespace baseNode.Ref cli.GetAppNamespace)
      baseNode.Ref.Name = .ok obj1)
    (h2 : cli.toKnowledgeBaseRetriever obj1 = .ok inst)
    (h3 : cli.Get "knowledgebases" (cli.GetNamespace baseNode.Ref cli.GetAppNamespace)
      inst.Spec.Input.KnowledgeBaseRef.Name = .ok obj2)
    (h4 : cli.toKnowledgeBase obj2 = .ok kb)
    (h5 : kb.Spec.Embedder = none ∨ kb.Spec.VectorStore = none) :
    NewKnowledgeBaseRetriever cli baseNode =
      ([Call.Get "knowledgebaseretrievers"
          (cli.GetNamespace baseNode.Ref cli.GetAppNamespace) baseNode.Ref.Name,
        Call.Get "knowledgebases"
          (cli.GetNamespace baseNode.Ref cli.GetAppNamespace)
          inst.Spec.Input.KnowledgeBaseRef.Name],
       .error ("knowledgebase " ++ inst.Spec.Input.KnowledgeBaseRef.Name ++
         ": embedder or vectorstore or filegroups is not setting")) := by
  unfold NewKnowledgeBaseRetriever
  simp only [h1, h2, h3, h4]
  rcases h5 with h | h
  · simp only [h]
  · cases he : kb.Spec.Embedder with
    | none => simp only [h]
    | some e => simp only [h]

/-- Witness of C12: the knowledge base "kb-1" without an embedder reference. -/
theorem resolve_missing_reference_witness :
    NewKnowledgeBaseRetriever
        (demoCluster (demoKnowledgeBase none (some (demoRef "VectorStore" "vs-1")))
          (demoVectorStore "chroma")) demoNode =
      ([Call.Get "knowledgebaseretrievers" "arcadia" "retriever-1",
        Call.Get "knowledgebases" "arcadia" "kb-1"],
       .error "knowledgebase kb-1: embedder or vectorstore or filegroups is not setting") :=
  resolve_missing_reference
    (demoCluster (demoKnowledgeBase none (some (demoRef "VectorStore" "vs-1")))
      (demoVectorStore "chroma")) demoNode
    { content := "knowledgebaseretrievers/arcadia/retriever-1" }
    { content := "knowledgebases/arcadia/kb-1" } demoDeclaration
    (demoKnowledgeBase none (some (demoRef "VectorStore" "vs-1"))) rfl rfl rfl rfl (Or.inl rfl)

/-- C13: when everything up to the vector store has been loaded, a vector store whose
backend type is not chroma makes `NewKnowledgeBaseRetriever` return the error "unknown
vectorstore type: " followed by that type, and no retriever; for chroma with a client that
`chroma.New` built, it returns the retriever made of that client, the declaration's number
of documents and score threshold, the node, and the declaration's `DocNullReturn`. -/
theorem resolve_backend (cli : Cluster) (baseNode : base.BaseNode)
    (obj1 obj2 obj3 obj4 : Unstructured) (inst : apiretriever.KnowledgeBaseRetriever)
    (kb : v1alpha1.KnowledgeBase) (embedderReq vectorStoreReq : v1alpha1.TypedObjectReference)
    (embedder : v1alpha1.Embedder) (em : String) (vectorStore : v1alpha1.VectorStore)
    (h1 : cli.Get "knowledgebaseretrievers" (cli.GetNamespace baseNode.Ref cli.GetAppNamespace)
      baseNode.Ref.Name = .ok obj1)
    (h2 : cli.toKnowledgeBaseRetriever obj1 = .ok inst)
    (h3 : cli.Get "knowledgebases" (cli.GetNamespace baseNode.Ref cli.GetAppNamespace)
      inst.Spec.Input.KnowledgeBaseRef.Name = .ok obj2)
    (h4 : cli.toKnowledgeBase obj2 = .ok kb)
    (h5 : kb.Spec.Embedder = some embedderReq)
    (h6 : kb.Spec.VectorStore = some vectorStoreReq)
    (h7 : cli.Get "embedders" (cli.GetNamespace embedderReq cli.GetAppNamespace)
      embedderReq.Name = .ok obj3)
    (h8 : cli.toEmbedder obj3 = .ok embedder)
    (h9 : cli.GetLangchainEmbedder embedder = .ok em)
    (h10 : cli.Get "vectorstores" (cli.GetNamespace vectorStoreReq cli.GetAppNamespace)
      vectorStoreReq.Name = .ok obj4)
    (h11 : cli.toVectorStore obj4 = .ok vectorStore) :
    (vectorStore.Spec.Type_ ≠ v1alpha1.VectorStoreTypeChroma →
        (NewKnowledgeBaseRetriever cli baseNode).2 =
          .error ("unknown vectorstore type: " ++ vectorStore.Spec.Type_)) ∧
      (vectorStore.Spec.Type_ = v1alpha1.VectorStoreTypeChroma →
        ∀ s : vectorstores.Store,
          cli.chromaNew vectorStore.Spec.Endpoint.URL vectorStore.Spec.Chroma.DistanceFunction
            (cli.VectorStoreCollectionName kb) em = .ok s →
          (NewKnowledgeBaseRetriever cli baseNode).2 =
            .ok { Retriever := { v := s, numDocs := inst.Spec.NumDocuments,
                                 scoreThreshold := inst.Spec.ScoreThreshold },
                  BaseNode := baseNode,
                  DocNullReturn := inst.Spec.DocNullReturn }) := by
  constructor
  · intro hne
    unfold NewKnowledgeBaseRetriever
    simp only [h1, h2, h3, h4, h5, h6, h7, h8, h9, h10, h11, hne, if_false]
  · intro heq s hs
    unfold NewKnowledgeBaseRetriever
    simp only [h1, h2, h3, h4, h5, h6, h7, h8, h9, h10, h11, heq, if_true, hs,
      vectorstores.ToRetriever]

/-- Witness of C13: the backend type "pgvector" is refused by name, and a chroma store
gives the retriever with five documents and the fallback "none". -/
theorem resolve_backend_witness :
    (NewKnowledgeBaseRetriever
        (demoCluster
          (demoKnowledgeBase (some (demoRef "Embedder" "e-1"))
            (some (demoRef "VectorStore" "vs-1")))
          (demoVectorStore "pgvector")) demoNode).2 =
        .error "unknown vectorstore type: pgvector" ∧
      (NewKnowledgeBaseRetriever
        (demoCluster
          (demoKnowledgeBase (some (demoRef "Embedder" "e-1"))
            (some (demoRef "VectorStore" "vs-1")))
          (demoVectorStore "chroma")) demoNode).2 = .ok demoRetriever :=
  ⟨(resolve_backend
      (demoCluster
        (demoKnowledgeBase (some (demoRef "Embedder" "e-1"))
          (some (demoRef "VectorStore" "vs-1")))
        (demoVectorStore "pgvector")) demoNode
      { content := "knowledgebaseretrievers/arcadia/retriever-1" }
      { content := "knowledgebases/arcadia/kb-1" }
      { content := "embedders/arcadia/e-1" }
      { content := "vectorstores/arcadia/vs-1" } demoDeclaration
      (demoKnowledgeBase (some (demoRef "Embedder" "e-1"))
        (some (demoRef "VectorStore" "vs-1")))
      (demoRef "Embedder" "e-1") (demoRef "VectorStore" "vs-1")
      { Name := "embedders/arcadia/e-1" } "embedders/arcadia/e-1" (demoVectorStore "pgvector")
      rfl rfl rfl rfl rfl rfl rfl rfl rfl rfl rfl).1 (by decide),
   (resolve_backend
      (demoCluster
        (demoKnowledgeBase (some (demoRef "Embedder" "e-1"))
          (some (demoRef "VectorStore" "vs-1")))
        (demoVectorStore "chroma")) demoNode
      { content := "knowledgebaseretrievers/arcadia/retriever-1" }
      { content := "knowledgebases/arcadia/kb-1" }
      { content := "embedders/arcadia/e-1" }
      { content := "vectorstores/arcadia/vs-1" } demoDeclaration
      (demoKnowledgeBase (some (demoRef "Embedder" "e-1"))
        (some (demoRef "VectorStore" "vs-1")))
      (demoRef "Embedder" "e-1") (demoRef "VectorStore" "vs-1")
      { Name := "embedders/arcadia/e-1" } "embedders/arcadia/e-1" (demoVectorStore "chroma")
      rfl rfl rfl rfl rfl rfl rfl rfl rfl rfl rfl).2 rfl
      { URL := "http://chroma:8000", DistanceFunction := "cosine", NameSpace := "arcadia_kb-1",
        Embedder := "embedders/arcadia/e-1" } rfl⟩

/-- C14: `Run` never returns an error; the returned map holds the retriever itself under
the key "retriever", and every other key has exactly the value, or the absence, it had in
the argument map. -/
theorem Run_injects_retriever (l : KnowledgeBaseRetriever) (cli : Cluster) (args : Args) :
    (l.Run cli args).2 = none ∧
      (l.Run cli args).1 "retriever" = some (Arg.retriever l) ∧
      ∀ k : String, k ≠ "retriever" → (l.Run cli args).1 k = args k := by
  refine ⟨rfl, ?_, ?_⟩
  · simp [KnowledgeBaseRetriever.Run]
  · intro k hk
    simp [KnowledgeBaseRetriever.Run, hk]

/-- Witness of C14: the keys "question", "context" and the unused "other" keep what they
had. -/
theorem Run_injects_retriever_witness :
    (demoRetriever.Run (demoCluster (demoKnowledgeBase none none) (demoVectorStore "chroma"))
        demoArgs).1 "question" = some (Arg.value (Any.string "how many days?")) ∧
      (demoRetriever.Run (demoCluster (demoKnowledgeBase none none) (demoVectorStore "chroma"))
        demoArgs).1 "other" = none :=
  ⟨(Run_injects_retriever demoRetriever
      (demoCluster (demoKnowledgeBase none none) (demoVectorStore "chroma")) demoArgs).2.2
      "question" (by decide),
   (Run_injects_retriever demoRetriever
      (demoCluster (demoKnowledgeBase none none) (demoVectorStore "chroma")) demoArgs).2.2
      "other" (by decide)⟩

end retriever

end Arcadia

namespace Arcadia

namespace knowledgebase

/-! ## The cache built from the spec -/

theorem lastWith_cons {α : Type} (k' : String) (a : α) (rest : List (String × α)) (k : String) :
    lastWith ((k', a) :: rest) k =
      match lastWith rest k with
      | some b => some b
      | none => if k' = k then some a else none := rfl

theorem lastWith_append {α : Type} (A B : List (String × α)) (k : String) :
    lastWith (A ++ B) k =
      match lastWith B k with
      | some b => some b
      | none => lastWith A k := by
  induction A with
  | nil =>
    simp only [List.nil_append]
    cases lastWith B k <;> rfl
  | cons e A ih =>
    obtain ⟨k', a⟩ := e
    rw [List.cons_append, lastWith_cons, ih, lastWith_cons]
    cases lastWith B k <;> rfl

theorem lastWith_mem {α : Type} (L : List (String × α)) (k : String) (a : α)
    (h : lastWith L k = some a) : (k, a) ∈ L := by
  induction L with
  | nil => simp [lastWith] at h
  | cons e L ih =>
    obtain ⟨k', b⟩ := e
    rw [lastWith_cons] at h
    cases hr : lastWith L k with
    | some c =>
      rw [hr] at h
      simp only [Option.some.injEq] at h
      subst h
      exact List.mem_cons_of_mem _ (ih hr)
    | none =>
      rw [hr] at h
      simp only at h
      split_ifs at h with hk
      simp only [Option.some.injEq] at h
      subst hk
      subst h
      exact List.mem_cons_self _ _

theorem lastWith_eq_none {α : Type} (L : List (String × α)) (k : String)
    (h : k ∉ L.map fun e => e.1) : lastWith L k = none := by
  induction L with
  | nil => rfl
  | cons e L ih =>
    obtain ⟨k', b⟩ := e
    simp only [List.map_cons, List.mem_cons, not_or] at h
    rw [lastWith_cons, ih h.2]
    simp only
    rw [if_neg (fun hk => h.1 hk.symm)]

theorem lastWith_of_nodup {α : Type} (L : List (String × α))
    (hn : (L.map fun e => e.1).Nodup) (k : String) (a : α) (h : (k, a) ∈ L) :
    lastWith L k = some a := by
  induction L with
  | nil => simp at h
  | cons e L ih =>
    obtain ⟨k', b⟩ := e
    simp only [List.map_cons, List.nodup_cons] at hn
    rw [lastWith_cons]
    rcases List.mem_cons.1 h with heq | hmem
    · simp only [Prod.mk.injEq] at heq
      obtain ⟨hk, ha⟩ := heq
      subst hk
      subst ha
      rw [lastWith_eq_none L k hn.1]
      simp
    · rw [ih hn.2 hmem]

theorem lastWith_map {α β : Type} (f : α → β) (L : List (String × α)) (k : String) :
    lastWith (L.map fun e => (e.1, f e.2)) k = (lastWith L k).map f := by
  induction L with
  | nil => rfl
  | cons e L ih =>
    obtain ⟨k', b⟩ := e
    rw [List.map_cons, lastWith_cons, ih, lastWith_cons]
    cases lastWith L k with
    | some c => rfl
    | none =>
      simp only [Option.map_none']
      split_ifs <;> rfl

theorem specFiles_eq (ns name : String) (out : Nat) (files : List v1alpha1.FileWithVersion) :
    ∀ (i : Nat) (cache : Cache) (groupFiles : List generated.Filedetail),
      specFiles ns name out i files (cache, groupFiles) =
        ((fun k => match lastWith (filePositions ns name out i files) k with
            | some pos => some pos
            | none => cache k),
          groupFiles ++ files.map fun fn => pendingDetail fn.Path) := by
  induction files with
  | nil =>
    intro i cache groupFiles
    simp [specFiles, filePositions, lastWith]
  | cons fn rest ih =>
    intro i cache groupFiles
    rw [specFiles, ih]
    simp only [List.map_cons, List.append_assoc, List.singleton_append, Prod.mk.injEq, and_true]
    funext k
    rw [filePositions, lastWith_cons]
    cases lastWith (filePositions ns name out (i + 1) rest) k with
    | some pos => rfl
    | none =>
      simp only [Cache.set]
      by_cases hk : k = fileKey ns name fn.Path
      · subst hk
        simp
      · rw [if_neg hk, if_neg (fun h => hk h.symm)]

theorem specGroups_eq (kbNamespace : String) (groups : List v1alpha1.FileGroup)
    (hsrc : ∀ fg ∈ groups, fg.Source ≠ none) :
    ∀ (out : Nat) (cache : Cache) (G : List generated.Filegroupdetail),
      specGroups kbNamespace out groups (cache, G) =
        some ((fun k => match lastWith (specPositions kbNamespace out groups) k with
            | some pos => some pos
            | none => cache k),
          G ++ groups.map (pendingGroup kbNamespace)) := by
  induction groups with
  | nil =>
    intro out cache G
    simp [specGroups, specPositions, lastWith]
  | cons fg rest ih =>
    intro out cache G
    have hrest : ∀ g ∈ rest, g.Source ≠ none := fun g hg => hsrc g (List.mem_cons_of_mem fg hg)
    have hfg := hsrc fg (List.mem_cons_self fg rest)
    cases hs : fg.Source with
    | none => exact absurd hs hfg
    | some src =>
      rw [specGroups]
      simp only [hs]
      rw [specFiles_eq, ih hrest]
      simp only [List.nil_append, List.map_cons, List.append_assoc, List.singleton_append,
        Option.some.injEq, Prod.mk.injEq]
      constructor
      · funext k
        rw [specPositions, lastWith_append]
        simp only [hs]
        cases lastWith (specPositions kbNamespace (out + 1) rest) k with
        | some pos => rfl
        | none => rfl
      · simp only [pendingGroup, hs, namespaceOf]

end knowledgebase

end Arcadia

namespace Arcadia

namespace knowledgebase

theorem mem_filePositions (ns name : String) (out : Nat) (files : List v1alpha1.FileWithVersion) :
    ∀ (i0 : Nat) (k : String) (o i : Nat),
      (k, (o, i)) ∈ filePositions ns name out i0 files ↔
        o = out ∧ i0 ≤ i ∧ ∃ fn, files[i - i0]? = some fn ∧ k = fileKey ns name fn.Path := by
  induction files with
  | nil =>
    intro i0 k o i
    simp [filePositions]
  | cons fn rest ih =>
    intro i0 k o i
    rw [filePositions, List.mem_cons, ih]
    constructor
    · rintro (h | ⟨ho, hi, fn', hfn, hk⟩)
      · simp only [Prod.mk.injEq] at h
        obtain ⟨hk, ho, hi⟩ := h
        subst hi
        exact ⟨ho, Nat.le_refl _, fn, by simp, hk⟩
      · refine ⟨ho, by omega, fn', ?_, hk⟩
        have : i - i0 = (i - (i0 + 1)) + 1 := by omega
        rw [this, List.getElem?_cons_succ]
        exact hfn
    · rintro ⟨ho, hi, fn', hfn, hk⟩
      by_cases h0 : i = i0
      · left
        subst h0
        simp only [Nat.sub_self, List.getElem?_cons_zero, Option.some.injEq] at hfn
        subst hfn
        simp [ho, hk]
      · right
        refine ⟨ho, by omega, fn', ?_, hk⟩
        have : i - i0 = (i - (i0 + 1)) + 1 := by omega
        rw [this, List.getElem?_cons_succ] at hfn
        exact hfn

theorem mem_specPositions (kbNamespace : String) (groups : List v1alpha1.FileGroup) :
    ∀ (out0 : Nat) (k : String) (o i : Nat),
      (k, (o, i)) ∈ specPositions kbNamespace out0 groups ↔
        out0 ≤ o ∧ ∃ fg src fn, groups[o - out0]? = some fg ∧ fg.Source = some src ∧
          fg.Files[i]? = some fn ∧
          k = fileKey (namespaceOf kbNamespace src) src.Name fn.Path := by
  induction groups with
  | nil =>
    intro out0 k o i
    simp [specPositions]
  | cons fg rest ih =>
    intro out0 k o i
    rw [specPositions, List.mem_append, ih]
    constructor
    · rintro (h | ⟨ho, fg', src, fn, hfg, hsrc, hfn, hk⟩)
      · cases hs : fg.Source with
        | none => simp [hs] at h
        | some src =>
          simp only [hs] at h
          rw [mem_filePositions] at h
          obtain ⟨ho, -, fn, hfn, hk⟩ := h
          subst ho
          refine ⟨Nat.le_refl _, fg, src, fn, by simp, hs, ?_, hk⟩
          simpa using hfn
      · refine ⟨by omega, fg', src, fn, ?_, hsrc, hfn, hk⟩
        have : o - out0 = (o - (out0 + 1)) + 1 := by omega
        rw [this, List.getElem?_cons_succ]
        exact hfg
    · rintro ⟨ho, fg', src, fn, hfg, hsrc, hfn, hk⟩
      by_cases h0 : o = out0
      · left
        subst h0
        simp only [Nat.sub_self, List.getElem?_cons_zero, Option.some.injEq] at hfg
        subst hfg
        simp only [hsrc]
        rw [mem_filePositions]
        exact ⟨rfl, Nat.zero_le _, fn, by simpa using hfn, hk⟩
      · right
        refine ⟨by omega, fg', src, fn, ?_, hsrc, hfn, hk⟩
        have : o - out0 = (o - (out0 + 1)) + 1 := by omega
        rw [this, List.getElem?_cons_succ] at hfg
        exact hfg

end knowledgebase

end Arcadia

namespace Arcadia

namespace knowledgebase

/-! ## Overlaying status entries on the file list -/

theorem validPos_of_shape {G G' : List generated.Filegroupdetail} (h : shapeOf G' = shapeOf G)
    (v : Nat × Nat) (hv : validPos G v) : validPos G' v := by
  obtain ⟨g, hg, hlt⟩ := hv
  have h1 : (shapeOf G')[v.1]? = (shapeOf G)[v.1]? := by rw [h]
  simp only [shapeOf, List.getElem?_map, hg, Option.map_some'] at h1
  cases hg' : G'[v.1]? with
  | none => simp [hg'] at h1
  | some g' =>
    simp only [hg', Option.map_some', Option.some.injEq, Prod.mk.injEq] at h1
    exact ⟨g', hg', by omega⟩

theorem setFile_spec (G : List generated.Filegroupdetail) (v0 v1 : Nat)
    (x : generated.Filedetail) (hv : validPos G (v0, v1)) :
    ∃ G', setFile G v0 v1 x = some G' ∧ shapeOf G' = shapeOf G ∧
      ∀ i j, entryAt G' i j = if i = v0 ∧ j = v1 then some x else entryAt G i j := by
  obtain ⟨g, hg, hlt⟩ := hv
  simp only at hg hlt
  have hv0 : v0 < G.length := by
    rw [List.getElem?_eq_some] at hg
    exact hg.1
  refine ⟨G.set v0 { g with Filedetails := g.Filedetails.set v1 x }, ?_, ?_, ?_⟩
  · simp only [setFile, hg, hlt, if_true]
  · apply List.ext_getElem?
    intro n
    simp only [shapeOf, List.getElem?_map, List.getElem?_set]
    by_cases hn : v0 = n
    · subst hn
      simp [hv0, hg]
    · simp [hn]
  · intro i j
    simp only [entryAt, List.getElem?_set]
    by_cases hi : v0 = i
    · subst hi
      simp only [hv0, if_true, hg, true_and]
      by_cases hj : v1 = j
      · subst hj
        simp [hlt]
      · rw [List.getElem?_set_ne hj, if_neg (fun h => hj h.symm)]
    · rw [if_neg hi, if_neg (fun h => hi h.1.symm)]

theorem overlayAll_spec (cache : Cache) (E : List (String × generated.Filedetail)) :
    ∀ G : List generated.Filegroupdetail,
      (∀ k v, cache k = some v → validPos G v) →
      ∃ G', overlayAll cache E G = some G' ∧ shapeOf G' = shapeOf G ∧
        ∀ (i j : Nat) (k0 : String) (e0 : generated.Filedetail),
          (∀ k, cache k = some (i, j) ↔ k = k0) → entryAt G i j = some e0 →
          entryAt G' i j = some (match lastWith E k0 with
            | some x => x
            | none => e0) := by
  induction E with
  | nil =>
    intro G _
    exact ⟨G, rfl, rfl, fun i j k0 e0 _ he => by simpa [lastWith] using he⟩
  | cons e E ih =>
    intro G hvalid
    obtain ⟨k, x⟩ := e
    cases hc : cache k with
    | none =>
      obtain ⟨G', hG', hshape, hentries⟩ := ih G hvalid
      refine ⟨G', by simp only [overlayAll, hc, hG'], hshape, ?_⟩
      intro i j k0 e0 hk0 he0
      rw [hentries i j k0 e0 hk0 he0, lastWith_cons]
      have hne : ¬ k = k0 := by
        intro h
        have := (hk0 k).2 h
        rw [hc] at this
        exact absurd this (by simp)
      cases lastWith E k0 with
      | some y => rfl
      | none => simp [hne]
    | some v =>
      obtain ⟨G1, hset, hshape1, hentry1⟩ := setFile_spec G v.1 v.2 x (hvalid k v hc)
      have hvalid1 : ∀ k v, cache k = some v → validPos G1 v :=
        fun k' v' h => validPos_of_shape hshape1 v' (hvalid k' v' h)
      obtain ⟨G', hG', hshape, hentries⟩ := ih G1 hvalid1
      refine ⟨G', by simp only [overlayAll, hc, hset, hG'], hshape.trans hshape1, ?_⟩
      intro i j k0 e0 hk0 he0
      rw [lastWith_cons]
      by_cases hv : i = v.1 ∧ j = v.2
      · have hvij : v = (i, j) := by
          obtain ⟨h1, h2⟩ := hv
          subst h1
          subst h2
          rfl
        have hkk : k = k0 := (hk0 k).1 (by rw [hc, hvij])
        have h1 : entryAt G1 i j = some x := by rw [hentry1, if_pos hv]
        rw [hentries i j k0 x hk0 h1]
        cases lastWith E k0 with
        | some y => rfl
        | none => simp [hkk]
      · have hne : ¬ k = k0 := by
          intro h
          have := (hk0 k).2 h
          rw [hc] at this
          simp only [Option.some.injEq] at this
          apply hv
          rw [this]
          exact ⟨rfl, rfl⟩
        have h1 : entryAt G1 i j = some e0 := by rw [hentry1, if_neg hv, he0]
        rw [hentries i j k0 e0 hk0 h1]
        cases lastWith E k0 with
        | some y => rfl
        | none => simp [hne]

theorem overlayAll_append (cache : Cache) (A B : List (String × generated.Filedetail)) :
    ∀ G : List generated.Filegroupdetail,
      overlayAll cache (A ++ B) G =
        match overlayAll cache A G with
        | some G1 => overlayAll cache B G1
        | none => none := by
  induction A with
  | nil => intro G; rfl
  | cons e A ih =>
    intro G
    obtain ⟨k, x⟩ := e
    simp only [List.cons_append, overlayAll]
    cases cache k with
    | none => exact ih G
    | some v =>
      simp only
      cases setFile G v.1 v.2 x with
      | none => rfl
      | some G1 => exact ih G1

theorem statusFiles_eq (p : Platform) (oss : Option OSS) (ns name vsBasePath : String)
    (cache : Cache) (details : List v1alpha1.FileDetails) :
    ∀ G : List generated.Filegroupdetail,
      statusFiles p oss ns name vsBasePath cache details G =
        overlayAll cache
          (details.map fun d =>
            (fileKey ns name d.Path, overlayDetail d (latestVersionOf p oss ns vsBasePath d))) G := by
  induction details with
  | nil => intro G; rfl
  | cons d rest ih =>
    intro G
    simp only [statusFiles, List.map_cons, overlayAll]
    cases cache (fileKey ns name d.Path) with
    | none => exact ih G
    | some v =>
      simp only
      cases setFile G v.1 v.2 (overlayDetail d (latestVersionOf p oss ns vsBasePath d)) with
      | none => rfl
      | some G1 => exact ih G1

theorem statusGroups_cons (p : Platform) (oss : Option OSS) (kbNamespace : String)
    (cache : Cache) (g : v1alpha1.FileGroupDetail) (rest : List v1alpha1.FileGroupDetail)
    (src : v1alpha1.TypedObjectReference) (hs : g.Source = some src)
    (G : List generated.Filegroupdetail) :
    statusGroups p oss kbNamespace cache (g :: rest) G =
      match statusFiles p oss (namespaceOf kbNamespace src) src.Name
          (vsBasePathOf p (namespaceOf kbNamespace src) src) cache g.FileDetails G with
      | none => none
      | some updated => statusGroups p oss kbNamespace cache rest updated := by
  rw [statusGroups]
  simp only [hs]
  rfl

theorem statusGroups_eq (p : Platform) (oss : Option OSS) (kbNamespace : String) (cache : Cache)
    (groups : List v1alpha1.FileGroupDetail) (hsrc : ∀ g ∈ groups, g.Source ≠ none) :
    ∀ G : List generated.Filegroupdetail,
      statusGroups p oss kbNamespace cache groups G =
        overlayAll cache
          ((statusEntries p oss kbNamespace groups).map fun e =>
            (e.1, overlayDetail e.2.1 e.2.2)) G := by
  induction groups with
  | nil => intro G; rfl
  | cons g rest ih =>
    intro G
    have hrest : ∀ g' ∈ rest, g'.Source ≠ none :=
      fun g' hg => hsrc g' (List.mem_cons_of_mem g hg)
    have hg := hsrc g (List.mem_cons_self g rest)
    cases hs : g.Source with
    | none => exact absurd hs hg
    | some src =>
      rw [statusGroups_cons p oss kbNamespace cache g rest src hs, statusFiles_eq, statusEntries]
      simp only [hs, List.map_append, List.map_map]
      rw [overlayAll_append]
      have hmap : (List.map ((fun e : String × (v1alpha1.FileDetails × String) =>
            (e.1, overlayDetail e.2.1 e.2.2)) ∘ fun d =>
            (fileKey (namespaceOf kbNamespace src) src.Name d.Path,
              (d, latestVersionOf p oss (namespaceOf kbNamespace src)
                (vsBasePathOf p (namespaceOf kbNamespace src) src) d))) g.FileDetails) =
          List.map (fun d => (fileKey (namespaceOf kbNamespace src) src.Name d.Path,
            overlayDetail d (latestVersionOf p oss (namespaceOf kbNamespace src)
              (vsBasePathOf p (namespaceOf kbNamespace src) src) d))) g.FileDetails := rfl
      rw [hmap]
      cases overlayAll cache (List.map (fun d =>
          (fileKey (namespaceOf kbNamespace src) src.Name d.Path,
            overlayDetail d (latestVersionOf p oss (namespaceOf kbNamespace src)
              (vsBasePathOf p (namespaceOf kbNamespace src) src) d))) g.FileDetails) G with
      | none => rfl
      | some G1 => exact ih hrest G1

end knowledgebase

end Arcadia

namespace Arcadia

namespace knowledgebase

/-! ## The file list of the model -/

theorem pendingGroups_getElem? (kbNamespace : String) (groups : List v1alpha1.FileGroup)
    (out : Nat) (fg : v1alpha1.FileGroup) (src : v1alpha1.TypedObjectReference)
    (hfg : groups[out]? = some fg) (hs : fg.Source = some src) :
    (groups.map (pendingGroup kbNamespace))[out]? =
      some { Source := some { APIGroup := src.APIGroup, Kind := src.Kind, Name := src.Name,
                              Namespace := some (namespaceOf kbNamespace src),
                              DisplayName := none },
             Filedetails := fg.Files.map fun fn => pendingDetail fn.Path } := by
  rw [List.getElem?_map, hfg]
  simp only [Option.map_some', pendingGroup, hs]

theorem pending_valid (kbNamespace : String) (groups : List v1alpha1.FileGroup)
    (k : String) (v : Nat × Nat)
    (h : lastWith (specPositions kbNamespace 0 groups) k = some v) :
    validPos (groups.map (pendingGroup kbNamespace)) v := by
  obtain ⟨o, i⟩ := v
  have hmem := lastWith_mem _ _ _ h
  rw [mem_specPositions] at hmem
  obtain ⟨-, fg, src, fn, hfg, hs, hfn, -⟩ := hmem
  simp only [Nat.sub_zero] at hfg
  refine ⟨_, pendingGroups_getElem? kbNamespace groups o fg src hfg hs, ?_⟩
  simp only [List.length_map]
  rw [List.getElem?_eq_some] at hfn
  exact hfn.1

theorem cache_iff_key (kbNamespace : String) (groups : List v1alpha1.FileGroup)
    (hn : ((specPositions kbNamespace 0 groups).map fun e => e.1).Nodup)
    (out i : Nat) (fg : v1alpha1.FileGroup) (src : v1alpha1.TypedObjectReference)
    (fn : v1alpha1.FileWithVersion)
    (hfg : groups[out]? = some fg) (hs : fg.Source = some src) (hfn : fg.Files[i]? = some fn)
    (k : String) :
    lastWith (specPositions kbNamespace 0 groups) k = some (out, i) ↔
      k = fileKey (namespaceOf kbNamespace src) src.Name fn.Path := by
  constructor
  · intro h
    have hmem := lastWith_mem _ _ _ h
    rw [mem_specPositions] at hmem
    obtain ⟨-, fg', src', fn', hfg', hs', hfn', hk⟩ := hmem
    simp only [Nat.sub_zero] at hfg'
    rw [hfg] at hfg'
    simp only [Option.some.injEq] at hfg'
    subst hfg'
    rw [hs] at hs'
    simp only [Option.some.injEq] at hs'
    subst hs'
    rw [hfn] at hfn'
    simp only [Option.some.injEq] at hfn'
    subst hfn'
    exact hk
  · intro hk
    apply lastWith_of_nodup _ hn
    rw [mem_specPositions]
    exact ⟨Nat.zero_le _, fg, src, fn, by simpa using hfg, hs, hfn, hk⟩

end knowledgebase

end Arcadia

namespace Arcadia

namespace knowledgebase

theorem specGroups_init (kbNamespace : String) (groups : List v1alpha1.FileGroup)
    (hsrc : ∀ fg ∈ groups, fg.Source ≠ none) :
    specGroups kbNamespace 0 groups (fun _ => none, []) =
      some (lastWith (specPositions kbNamespace 0 groups),
        groups.map (pendingGroup kbNamespace)) := by
  rw [specGroups_eq kbNamespace groups hsrc]
  simp only [List.nil_append, Option.some.injEq, Prod.mk.injEq, and_true]
  funext k
  cases lastWith (specPositions kbNamespace 0 groups) k <;> rfl

theorem overlaid_spec (p : Platform) (kb : v1alpha1.KnowledgeBase)
    (hstat : ∀ g ∈ kb.Status.FileGroupDetail, g.Source ≠ none)
    (hoss : kb.Status.FileGroupDetail = [] ∨ ∃ oss, p.GetSystemDatasourceOSS = .ok oss) :
    ∃ G', (if kb.Status.FileGroupDetail.length > 0 then
          match p.GetSystemDatasourceOSS with
          | .error err => Outcome.err err
          | .ok oss =>
            match statusGroups p oss kb.Namespace
                (lastWith (specPositions kb.Namespace 0 kb.Spec.FileGroups))
                kb.Status.FileGroupDetail
                (kb.Spec.FileGroups.map (pendingGroup kb.Namespace)) with
            | none => Outcome.panic
            | some updated => Outcome.ok updated
        else Outcome.ok (kb.Spec.FileGroups.map (pendingGroup kb.Namespace))) = Outcome.ok G' ∧
      shapeOf G' = shapeOf (kb.Spec.FileGroups.map (pendingGroup kb.Namespace)) ∧
      ∀ (i j : Nat) (k0 : String) (e0 : generated.Filedetail),
        (∀ k, lastWith (specPositions kb.Namespace 0 kb.Spec.FileGroups) k = some (i, j) ↔
          k = k0) →
        entryAt (kb.Spec.FileGroups.map (pendingGroup kb.Namespace)) i j = some e0 →
        entryAt G' i j = some (match lastWith (statusOf p kb) k0 with
          | some x => overlayDetail x.1 x.2
          | none => e0) := by
  by_cases hlen : kb.Status.FileGroupDetail.length > 0
  · rw [if_pos hlen]
    have hne : kb.Status.FileGroupDetail ≠ [] := by
      intro h
      rw [h] at hlen
      simp at hlen
    rcases hoss with h | ⟨oss, hoss⟩
    · exact absurd h hne
    · simp only [hoss]
      rw [statusGroups_eq p oss kb.Namespace _ _ hstat]
      obtain ⟨G', hG', hshape, hentries⟩ := overlayAll_spec
        (lastWith (specPositions kb.Namespace 0 kb.Spec.FileGroups))
        ((statusEntries p oss kb.Namespace kb.Status.FileGroupDetail).map fun e =>
          (e.1, overlayDetail e.2.1 e.2.2))
        (kb.Spec.FileGroups.map (pendingGroup kb.Namespace))
        (fun k v h => pending_valid kb.Namespace kb.Spec.FileGroups k v h)
      refine ⟨G', by rw [hG'], hshape, ?_⟩
      intro i j k0 e0 hk0 he0
      rw [hentries i j k0 e0 hk0 he0]
      have hmap := lastWith_map (fun x : v1alpha1.FileDetails × String => overlayDetail x.1 x.2)
        (statusEntries p oss kb.Namespace kb.Status.FileGroupDetail) k0
      rw [hmap]
      simp only [statusOf, hoss]
      cases lastWith (statusEntries p oss kb.Namespace kb.Status.FileGroupDetail) k0 <;> rfl
  · rw [if_neg hlen]
    have hnil : kb.Status.FileGroupDetail = [] := by
      cases hl : kb.Status.FileGroupDetail with
      | nil => rfl
      | cons a l =>
        rw [hl] at hlen
        simp at hlen
    refine ⟨_, rfl, rfl, ?_⟩
    intro i j k0 e0 _ he0
    have hst : statusOf p kb = [] := by
      simp only [statusOf, hnil]
      cases p.GetSystemDatasourceOSS <;> rfl
    rw [he0, hst]
    rfl

end knowledgebase

end Arcadia

namespace Arcadia

namespace knowledgebase

/-! ## Keys and the triples they stand for -/

theorem split_at_unique (c : Char) :
    ∀ (a a' x x' : List Char), c ∉ a → c ∉ a' → a ++ c :: x = a' ++ c :: x' →
      a = a' ∧ x = x' := by
  intro a
  induction a with
  | nil =>
    intro a' x x' _ ha' h
    cases a' with
    | nil =>
      simp only [List.nil_append, List.cons.injEq, true_and] at h
      exact ⟨rfl, h⟩
    | cons d a'' =>
      simp only [List.nil_append, List.cons_append, List.cons.injEq] at h
      exact absurd (h.1 ▸ List.mem_cons_self d a'') ha'
  | cons d a1 ih =>
    intro a' x x' ha ha' h
    cases a' with
    | nil =>
      simp only [List.nil_append, List.cons_append, List.cons.injEq] at h
      exact absurd (h.1 ▸ List.mem_cons_self d a1) ha
    | cons d' a1' =>
      simp only [List.cons_append, List.cons.injEq] at h
      have hrec := ih a1' x x' (fun hm => ha (List.mem_cons_of_mem d hm))
        (fun hm => ha' (List.mem_cons_of_mem d' hm)) h.2
      exact ⟨by rw [h.1, hrec.1], hrec.2⟩

theorem fileKey_data (ns name path : String) :
    (fileKey ns name path).data = ns.data ++ '/' :: (name.data ++ '/' :: path.data) := by
  simp only [fileKey, String.data_append, List.append_assoc]
  rfl

theorem fileKey_eq_iff (ns name path ns' name' path' : String)
    (h1 : '/' ∉ ns.data) (h2 : '/' ∉ name.data) (h3 : '/' ∉ ns'.data) (h4 : '/' ∉ name'.data) :
    fileKey ns name path = fileKey ns' name' path' ↔
      ns = ns' ∧ name = name' ∧ path = path' := by
  constructor
  · intro h
    have hd := congrArg String.data h
    rw [fileKey_data, fileKey_data] at hd
    obtain ⟨hns, hrest⟩ := split_at_unique '/' _ _ _ _ h1 h3 hd
    obtain ⟨hname, hpath⟩ := split_at_unique '/' _ _ _ _ h2 h4 hrest
    exact ⟨String.ext hns, String.ext hname, String.ext hpath⟩
  · rintro ⟨rfl, rfl, rfl⟩
    rfl

end knowledgebase

end Arcadia

namespace Arcadia

namespace knowledgebase

/-- C15, as the code has it: for a knowledge base whose file-group sources and embedder and
vector-store references are set, and whose status is empty or whose object store can be
looked up, `knowledgebase2model` returns a model whose file-group details have, in order,
one group per spec file group, with the source of that group, and one entry per spec file;
status files whose key is not in the spec add no entry.  When, besides, the spec files have
pairwise distinct keys "namespace/source name/path", an entry whose key is the key of a
status file carries the type, count, size, path, phase, time cost, update time and version
of the last such status file, with the version id the object store reports, and every other
entry has the path of the spec file, the phase Pending and no other field set. -/
theorem knowledgebase2model_file_list (p : Platform) (kb : v1alpha1.KnowledgeBase)
    (hsrc : ∀ fg ∈ kb.Spec.FileGroups, fg.Source ≠ none)
    (hstat : ∀ g ∈ kb.Status.FileGroupDetail, g.Source ≠ none)
    (hoss : kb.Status.FileGroupDetail = [] ∨ ∃ oss, p.GetSystemDatasourceOSS = .ok oss)
    (hemb : kb.Spec.Embedder ≠ none) (hvs : kb.Spec.VectorStore ≠ none) :
    ∃ md, knowledgebase2model p kb = Outcome.ok md ∧
      md.FileGroupDetails.length = kb.Spec.FileGroups.length ∧
      ∀ (out : Nat) (fg : v1alpha1.FileGroup) (src : v1alpha1.TypedObjectReference),
        kb.Spec.FileGroups[out]? = some fg → fg.Source = some src →
        ∃ g, md.FileGroupDetails[out]? = some g ∧
          g.Source = some { APIGroup := src.APIGroup, Kind := src.Kind, Name := src.Name,
                            Namespace := some (namespaceOf kb.Namespace src),
                            DisplayName := none } ∧
          g.Filedetails.length = fg.Files.length ∧
          ((specKeys kb).Nodup →
            ∀ (i : Nat) (fn : v1alpha1.FileWithVersion), fg.Files[i]? = some fn →
              ∃ e, g.Filedetails[i]? = some e ∧
                (∀ (d : v1alpha1.FileDetails) (latestVersion : String),
                  lastWith (statusOf p kb)
                      (fileKey (namespaceOf kb.Namespace src) src.Name fn.Path) =
                    some (d, latestVersion) →
                  e = { FileType := d.Type_, Count := d.Count, Size := d.Size, Path := d.Path,
                        Phase := d.Phase, TimeCost := d.TimeCost,
                        UpdateTimestamp := some d.LastUpdateTime, Version := d.Version,
                        LatestVersion := latestVersion }) ∧
                (lastWith (statusOf p kb)
                      (fileKey (namespaceOf kb.Namespace src) src.Name fn.Path) = none →
                  e = { FileType := "", Count := "", Size := "", Path := fn.Path,
                        Phase := v1alpha1.FileProcessPhasePending, TimeCost := 0,
                        UpdateTimestamp := none, Version := "", LatestVersion := "" })) := by
  obtain ⟨G', hG', hshape, hentries⟩ := overlaid_spec p kb hstat hoss
  obtain ⟨embedderRef, hemb'⟩ := Option.ne_none_iff_exists'.1 hemb
  obtain ⟨vectorStoreRef, hvs'⟩ := Option.ne_none_iff_exists'.1 hvs
  have hrun : ∃ md, knowledgebase2model p kb = Outcome.ok md ∧ md.FileGroupDetails = G' := by
    unfold knowledgebase2model
    rw [specGroups_init kb.Namespace kb.Spec.FileGroups hsrc]
    simp only []
    rw [hG']
    simp only [hemb', hvs']
    exact ⟨_, rfl, rfl⟩
  obtain ⟨md, hmd, hfiles⟩ := hrun
  refine ⟨md, hmd, ?_, ?_⟩
  · rw [hfiles]
    have := congrArg List.length hshape
    simpa [shapeOf] using this
  · intro out fg src hfg hs
    have hpend := pendingGroups_getElem? kb.Namespace kb.Spec.FileGroups out fg src hfg hs
    have hsh : (shapeOf G')[out]? =
        (shapeOf (kb.Spec.FileGroups.map (pendingGroup kb.Namespace)))[out]? := by rw [hshape]
    simp only [shapeOf, List.getElem?_map, hpend, Option.map_some', List.length_map] at hsh
    rw [hfiles]
    cases hg : G'[out]? with
    | none => simp [hg] at hsh
    | some g =>
      simp only [hg, Option.map_some', Option.some.injEq, Prod.mk.injEq] at hsh
      refine ⟨g, rfl, hsh.1, hsh.2, ?_⟩
      intro hkeys i fn hfn
      have hk0 := cache_iff_key kb.Namespace kb.Spec.FileGroups hkeys out i fg src fn hfg hs hfn
      have he0 : entryAt (kb.Spec.FileGroups.map (pendingGroup kb.Namespace)) out i =
          some (pendingDetail fn.Path) := by
        simp only [entryAt, hpend, List.getElem?_map, hfn, Option.map_some']
      have hent := hentries out i _ (pendingDetail fn.Path) hk0 he0
      simp only [entryAt, hg] at hent
      refine ⟨_, hent, ?_, ?_⟩
      · intro d latestVersion hlast
        rw [hlast]
        rfl
      · intro hlast
        rw [hlast]
        rfl

/-- Witness of C15: the files "a.txt" and "b.txt" with a status for "a.txt" and for a file
"c.txt" that the spec does not list: one group of two entries, "a.txt" with the fields of
its status detail and "b.txt" pending. -/
theorem knowledgebase2model_file_list_witness :
    ∃ md, knowledgebase2model demoPlatform
        (demoFiles ["a.txt", "b.txt"]
          [demoDetail "a.txt" "Succeeded", demoDetail "c.txt" "Failed"]) = Outcome.ok md ∧
      md.FileGroupDetails.length = 1 ∧
      ∃ g, md.FileGroupDetails[0]? = some g ∧ g.Filedetails.length = 2 ∧
        g.Filedetails[0]? = some { FileType := "QA", Count := "3", Size := "1KB",
                                   Path := "a.txt", Phase := "Succeeded", TimeCost := 12,
                                   UpdateTimestamp := some 1700000000, Version := "v1",
                                   LatestVersion := "" } ∧
        g.Filedetails[1]? = some { FileType := "", Count := "", Size := "", Path := "b.txt",
                                   Phase := "Pending", TimeCost := 0, UpdateTimestamp := none,
                                   Version := "", LatestVersion := "" } := by
  obtain ⟨md, hmd, hlen, hgroups⟩ := knowledgebase2model_file_list demoPlatform
    (demoFiles ["a.txt", "b.txt"] [demoDetail "a.txt" "Succeeded", demoDetail "c.txt" "Failed"])
    (by decide) (by decide) (Or.inr ⟨none, rfl⟩) (by decide) (by decide)
  obtain ⟨g, hg, -, hglen, hfiles⟩ := hgroups 0
    { Source := some demoSource,
      Files := [{ Path := "a.txt", Version := "" }, { Path := "b.txt", Version := "" }] }
    demoSource rfl rfl
  obtain ⟨e0, he0, hov0, -⟩ := hfiles (by decide) 0 { Path := "a.txt", Version := "" } rfl
  obtain ⟨e1, he1, -, hpe1⟩ := hfiles (by decide) 1 { Path := "b.txt", Version := "" } rfl
  refine ⟨md, hmd, hlen, g, hg, hglen, ?_, ?_⟩
  · rw [he0, hov0 (demoDetail "a.txt" "Succeeded") "" (by decide)]
    rfl
  · rw [he1, hpe1 (by decide)]
    rfl

/-- C15 fails as stated: when the spec lists "a.txt" twice and the status holds a Succeeded
detail for it, only the second entry carries the status; the first entry stays Pending
although the status lists a file with its namespace, source name and path.  Without the
repetition, "a.txt" is Succeeded, "b.txt" Pending, and the status file "c.txt" adds no
entry. -/
theorem knowledgebase2model_repeated_file_counterexample :
    phasesOf (knowledgebase2model demoPlatform
        (demoFiles ["a.txt", "a.txt"] [demoDetail "a.txt" "Succeeded"])) =
        [[("a.txt", "Pending"), ("a.txt", "Succeeded")]] ∧
      phasesOf (knowledgebase2model demoPlatform
        (demoFiles ["a.txt", "b.txt"]
          [demoDetail "a.txt" "Succeeded", demoDetail "c.txt" "Failed"])) =
        [[("a.txt", "Succeeded"), ("b.txt", "Pending")]] := by
  decide

end knowledgebase

end Arcadia
